import Mathlib

/-!
Verification development for the football-scores gateway provider.

The repository is a TypeScript gateway provider with three source files:
* `src/protocol/gateway-provider.ts` — the `GatewayProviderImplementation`
  façade (`predictFixtureResults`, `create`, `getDetails`, `delete`);
* the request executor `makePredictionRequest` (utils);
* `src/providers.ts` — registration only (no behaviour).

This file shallowly embeds the behaviour of that code in Lean:
* `Json` models the JavaScript values produced by `JSON.parse` (numbers are
  modelled as integers: every number the code manipulates is integral;
  fractional and exponent number literals are outside the modelled subset
  and rejected by the embedded parser);
* `printVal`/`jsonStringify` model `JSON.stringify`, `parseVal`/`jsonParse`
  model `JSON.parse` (fuel-indexed recursive descent; the fuel is set from
  the input length, which the completeness lemmas show is always enough);
* `JsDate`/`parseISODate` model the ECMAScript `new Date(string)` ISO
  date-time parser on its specified format (`YYYY-MM-DD[THH:mm[:ss[.s+]]]`
  with `Z`/`±HH:MM` designator, expanded `±YYYYYY` years, `T24:00`,
  the `8.64e15` ms time clip).  Engine-specific legacy date formats,
  date-times without a UTC designator (host-timezone dependent) and
  non-string `Date` constructor coercions are outside the modelled subset
  and map to an invalid date;
* thrown JavaScript values are `Thrown`: either a typed `PipeError`
  (`Thrown.pipe`) or an untyped runtime error (`Thrown.js`; the `message`
  texts of engine-raised errors are engine specific and modelled loosely,
  the `name` classification is faithful);
* effects are explicit: the configuration resolver is a parameter, the
  network is a function from the issued request to an outcome, and each
  operation returns the list of HTTP requests it issued and the log lines
  it wrote alongside its result.
-/

namespace FootballGateway

/-! ## JavaScript values -/

/-- A JavaScript value as produced by `JSON.parse`: `null`, booleans,
(integral) numbers, strings, arrays and objects.  Objects are ordered
association lists, matching JavaScript property insertion order. -/
inductive Json where
  | null : Json
  | bool (b : Bool) : Json
  | num (n : Int) : Json
  | str (s : String) : Json
  | arr (elems : List Json) : Json
  | obj (fields : List (String × Json)) : Json
deriving Repr

/-- Property lookup in an object's field list (first match). -/
def jlookup : List (String × Json) → String → Option Json
  | [], _ => none
  | (k, v) :: rest, key => if k = key then some v else jlookup rest key

/-- Property write: replaces the value in place when the key is present
(JavaScript keeps the original insertion position) and appends otherwise. -/
def setField : List (String × Json) → String → Json → List (String × Json)
  | [], key, v => [(key, v)]
  | (k, w) :: rest, key, v =>
    if k = key then (k, v) :: rest else (k, w) :: setField rest key v

/-- Property read `j[key]` on a non-nullish value: `some` when the own
property exists, `none` (JavaScript `undefined`) otherwise.  Array and
primitive reads with the (non-index, non-`length`) keys the code uses
yield `undefined`. -/
def getProp : Json → String → Option Json
  | .obj fields, key => jlookup fields key
  | _, _ => none

/-! ## `JSON.stringify` -/

/-- Decimal digit character (callers pass values below 10). -/
def digitChar (n : Nat) : Char := Char.ofNat (48 + n)

/-- Lowercase hexadecimal digit character (callers pass values below 16). -/
def hexChar (n : Nat) : Char := if n < 10 then digitChar n else Char.ofNat (87 + n)

/-- Decimal digits of a natural number, most significant first.
`fuel`-indexed exactly like `Nat.toDigits`; callers pass `fuel > n`. -/
def natChars : Nat → Nat → List Char
  | 0, _ => []
  | fuel + 1, n => if n < 10 then [digitChar n] else natChars fuel (n / 10) ++ [digitChar (n % 10)]

/-- JavaScript decimal rendering of an integral number. -/
def intChars (n : Int) : List Char :=
  if n < 0 then '-' :: natChars (n.natAbs + 1) n.natAbs else natChars (n.toNat + 1) n.toNat

/-- `JSON.stringify` escaping of one string character (the `QuoteJSONString`
step): two-character escapes for quote, backslash and the named control
characters, `\u00XX` for other control characters, everything else copied. -/
def escapeChar (c : Char) : List Char :=
  if c = '"' then ['\\', '"']
  else if c = '\\' then ['\\', '\\']
  else if c.toNat = 8 then ['\\', 'b']
  else if c.toNat = 9 then ['\\', 't']
  else if c.toNat = 10 then ['\\', 'n']
  else if c.toNat = 12 then ['\\', 'f']
  else if c.toNat = 13 then ['\\', 'r']
  else if c.toNat < 32 then
    ['\\', 'u', '0', '0', hexChar (c.toNat / 16), hexChar (c.toNat % 16)]
  else [c]

/-- `JSON.stringify` escaping of a whole string body. -/
def escapeChars : List Char → List Char
  | [] => []
  | c :: rest => escapeChar c ++ escapeChars rest

/-- A `JSON.stringify`-serialized string, quotes included. -/
def printStr (s : String) : List Char := '"' :: escapeChars s.data ++ ['"']

mutual

/-- `JSON.stringify` of a value (character list; no indentation, as called
by the code). -/
def printVal : Json → List Char
  | .null => 'n' :: ['u', 'l', 'l']
  | .bool true => 't' :: ['r', 'u', 'e']
  | .bool false => 'f' :: ['a', 'l', 's', 'e']
  | .num n => intChars n
  | .str s => printStr s
  | .arr es => '[' :: printElems es ++ [']']
  | .obj fs => Char.ofNat 123 :: printFields fs ++ [Char.ofNat 125]

/-- Comma-separated serialization of array elements. -/
def printElems : List Json → List Char
  | [] => []
  | [v] => printVal v
  | v :: rest => printVal v ++ ',' :: printElems rest

/-- Comma-separated serialization of object members. -/
def printFields : List (String × Json) → List Char
  | [] => []
  | [(k, v)] => printStr k ++ ':' :: printVal v
  | (k, v) :: rest => printStr k ++ ':' :: printVal v ++ ',' :: printFields rest

end

/-- `JSON.stringify`. -/
def jsonStringify (v : Json) : String := ⟨printVal v⟩

/-! ## `JSON.parse` -/

/-- JSON insignificant whitespace. -/
def isWs (c : Char) : Bool := c = ' ' || c.toNat = 9 || c.toNat = 10 || c.toNat = 13

/-- Skip insignificant whitespace. -/
def skipWs : List Char → List Char
  | [] => []
  | c :: rest => if isWs c then skipWs rest else c :: rest

/-- Value of a decimal digit character. -/
def digitVal? (c : Char) : Option Nat :=
  if 48 ≤ c.toNat ∧ c.toNat ≤ 57 then some (c.toNat - 48) else none

/-- Value of a hexadecimal digit character (either case). -/
def hexVal? (c : Char) : Option Nat :=
  if 48 ≤ c.toNat ∧ c.toNat ≤ 57 then some (c.toNat - 48)
  else if 97 ≤ c.toNat ∧ c.toNat ≤ 102 then some (c.toNat - 87)
  else if 65 ≤ c.toNat ∧ c.toNat ≤ 70 then some (c.toNat - 55)
  else none

/-- Code points Lean's `Char` can carry (JSON strings with lone surrogates
are outside the modelled subset). -/
def isValidCodePoint (n : Nat) : Bool := n < 0xd800 || (0xdfff < n && n < 0x110000)

/-- Parse a JSON string body after the opening quote: returns the decoded
characters and the input after the closing quote.  Handles the escape
sequences and rejects raw control characters, as `JSON.parse` does. -/
def parseStrBody : List Char → Option (List Char × List Char)
  | [] => none
  | c :: rest =>
    if c = '"' then some ([], rest)
    else if c = '\\' then
      match rest with
      | [] => none
      | e :: rest2 =>
        if e = '"' then (parseStrBody rest2).map (fun p => ('"' :: p.1, p.2))
        else if e = '\\' then (parseStrBody rest2).map (fun p => ('\\' :: p.1, p.2))
        else if e = '/' then (parseStrBody rest2).map (fun p => ('/' :: p.1, p.2))
        else if e = 'b' then (parseStrBody rest2).map (fun p => (Char.ofNat 8 :: p.1, p.2))
        else if e = 'f' then (parseStrBody rest2).map (fun p => (Char.ofNat 12 :: p.1, p.2))
        else if e = 'n' then (parseStrBody rest2).map (fun p => (Char.ofNat 10 :: p.1, p.2))
        else if e = 'r' then (parseStrBody rest2).map (fun p => (Char.ofNat 13 :: p.1, p.2))
        else if e = 't' then (parseStrBody rest2).map (fun p => (Char.ofNat 9 :: p.1, p.2))
        else if e = 'u' then
          match rest2 with
          | h1 :: h2 :: h3 :: h4 :: rest3 =>
            match hexVal? h1, hexVal? h2, hexVal? h3, hexVal? h4 with
            | some v1, some v2, some v3, some v4 =>
              let n := v1 * 4096 + v2 * 256 + v3 * 16 + v4
              if isValidCodePoint n then
                (parseStrBody rest3).map (fun p => (Char.ofNat n :: p.1, p.2))
              else none
            | _, _, _, _ => none
          | _ => none
        else none
    else if c.toNat < 32 then none
    else (parseStrBody rest).map (fun p => (c :: p.1, p.2))

/-- Longest digit prefix. -/
def takeDigits : List Char → List Char × List Char
  | [] => ([], [])
  | c :: rest =>
    if 48 ≤ c.toNat ∧ c.toNat ≤ 57 then
      let p := takeDigits rest
      (c :: p.1, p.2)
    else ([], c :: rest)

/-- Value of a digit string, most significant first. -/
def digitsVal (acc : Nat) (l : List Char) : Nat :=
  l.foldl (fun a c => a * 10 + (c.toNat - 48)) acc

/-- Head-character test. -/
def headIs (c : Char) : List Char → Bool
  | [] => false
  | c2 :: _ => c2 = c

/-- Parse the digits of a JSON number (no leading zero).  A following
fraction or exponent marker is outside the modelled (integral) subset and
rejected. -/
def parseNatPart (l : List Char) : Option (Nat × List Char) :=
  match takeDigits l with
  | ([], _) => none
  | (d :: ds, rest) =>
    if d = '0' ∧ ds ≠ [] then none
    else if headIs '.' rest || headIs 'e' rest || headIs 'E' rest then none
    else some (digitsVal 0 (d :: ds), rest)

/-- Parse a JSON number token. -/
def parseNumber (l : List Char) : Option (Json × List Char) :=
  match l with
  | [] => none
  | c :: rest =>
    if c = '-' then (parseNatPart rest).map (fun p => (.num (-(p.1 : Int)), p.2))
    else (parseNatPart (c :: rest)).map (fun p => (.num (p.1 : Int), p.2))

/-- Expect a literal character sequence. -/
def stripPre : List Char → List Char → Option (List Char)
  | [], l => some l
  | c :: cs, l =>
    match l with
    | [] => none
    | c2 :: rest => if c2 = c then stripPre cs rest else none

mutual

/-- Fuel-indexed recursive-descent `JSON.parse` value parser.  The fuel
only bounds the nesting of value parses; `jsonParse` passes the input
length plus one, which `parseVal_print` shows is always sufficient for
serialized values. -/
def parseVal : Nat → List Char → Option (Json × List Char)
  | 0, _ => none
  | fuel + 1, l =>
    match skipWs l with
    | [] => none
    | c :: rest =>
      if c = 'n' then (stripPre ['u', 'l', 'l'] rest).map (fun r => (.null, r))
      else if c = 't' then (stripPre ['r', 'u', 'e'] rest).map (fun r => (.bool true, r))
      else if c = 'f' then (stripPre ['a', 'l', 's', 'e'] rest).map (fun r => (.bool false, r))
      else if c = '"' then (parseStrBody rest).map (fun p => (.str ⟨p.1⟩, p.2))
      else if c = '[' then
        let r2 := skipWs rest
        if headIs ']' r2 then some (.arr [], r2.tail)
        else (parseElems fuel r2).map (fun p => (.arr p.1, p.2))
      else if c = Char.ofNat 123 then
        let r2 := skipWs rest
        if headIs (Char.ofNat 125) r2 then some (.obj [], r2.tail)
        else (parseFields fuel [] r2).map (fun p => (.obj p.1, p.2))
      else parseNumber (c :: rest)

/-- Parse the elements of a non-empty array, after the opening bracket. -/
def parseElems : Nat → List Char → Option (List Json × List Char)
  | 0, _ => none
  | fuel + 1, l =>
    match parseVal fuel l with
    | none => none
    | some (v, r) =>
      match skipWs r with
      | ',' :: r2 => (parseElems fuel r2).map (fun p => (v :: p.1, p.2))
      | ']' :: r2 => some ([v], r2)
      | _ => none

/-- Parse the members of a non-empty object, after the opening brace.
Members accumulate through `setField`: on a duplicate key the later value
wins while the earlier position is kept, as in JavaScript. -/
def parseFields : Nat → List (String × Json) → List Char → Option (List (String × Json) × List Char)
  | 0, _, _ => none
  | fuel + 1, acc, l =>
    match skipWs l with
    | '"' :: r =>
      match parseStrBody r with
      | none => none
      | some (kcs, r2) =>
        match skipWs r2 with
        | ':' :: r3 =>
          match parseVal fuel r3 with
          | none => none
          | some (v, r4) =>
            let acc2 := setField acc ⟨kcs⟩ v
            match skipWs r4 with
            | ',' :: r5 => parseFields fuel acc2 r5
            | c :: r5 => if c = Char.ofNat 125 then some (acc2, r5) else none
            | _ => none
        | _ => none
    | _ => none

end

/-- A thrown JavaScript error value that is not a `PipeError`: an untyped
runtime error.  `message` texts raised by the engine are engine specific
and modelled loosely; the `name` classification is faithful.  `cause` is
the stringified `cause` property read by the executor's logging. -/
structure JsErrorVal where
  name : String
  message : String
  cause : String
deriving Repr, DecidableEq

/-- The `SyntaxError` thrown by `JSON.parse` on malformed input. -/
def jsonSyntaxError : JsErrorVal := ⟨"SyntaxError", "is not valid JSON", "undefined"⟩

/-- `JSON.parse`: parse one value, insignificant whitespace around it,
nothing after it; throw `SyntaxError` otherwise. -/
def jsonParse (s : String) : Except JsErrorVal Json :=
  match parseVal (s.data.length + 1) s.data with
  | some (v, rest) => if skipWs rest = [] then .ok v else .error jsonSyntaxError
  | none => .error jsonSyntaxError

example : jsonParse "[1, true, \"a\"]" = .ok (.arr [.num 1, .bool true, .str "a"]) := by rfl
example : jsonParse " \x7b\"a\": [-5], \"b\": null\x7d " =
    .ok (.obj [("a", .arr [.num (-5)]), ("b", .null)]) := by rfl
example : jsonParse "x" = .error jsonSyntaxError := by rfl
example : jsonParse "[1,]" = .error jsonSyntaxError := by rfl
example : jsonParse "01" = .error jsonSyntaxError := by rfl
example : jsonStringify (.obj [("a", .str "x\ny"), ("b", .arr [])]) =
    "\x7b\"a\":\"x\\ny\",\"b\":[]\x7d" := by rfl
example : jsonParse "\"\\u0041\\n\"" = .ok (.str "A\n") := by rfl

/-! ## Well-formed values and parser fuel -/

/-- No duplicate keys in an object's field list.  JavaScript objects never
have duplicate keys; `JSON.parse` output satisfies this (`parseVal_wf`). -/
def keysNodup : List (String × Json) → Bool
  | [] => true
  | (k, _) :: rest => !(jlookup rest k).isSome && keysNodup rest

mutual

/-- A value all of whose objects have duplicate-free keys: exactly the
values that arise as JavaScript runtime values. -/
def wfVal : Json → Bool
  | .null => true
  | .bool _ => true
  | .num _ => true
  | .str _ => true
  | .arr es => wfElems es
  | .obj fs => keysNodup fs && wfFields fs

/-- `wfVal` on every element. -/
def wfElems : List Json → Bool
  | [] => true
  | v :: rest => wfVal v && wfElems rest

/-- `wfVal` on every member value. -/
def wfFields : List (String × Json) → Bool
  | [] => true
  | (_, v) :: rest => wfVal v && wfFields rest

end

mutual

/-- Fuel sufficient for `parseVal` to parse this value's serialization. -/
def jfuel : Json → Nat
  | .null => 1
  | .bool _ => 1
  | .num _ => 1
  | .str _ => 1
  | .arr es => 1 + jfuelElems es
  | .obj fs => 1 + jfuelFields fs

/-- Fuel sufficient for `parseElems`. -/
def jfuelElems : List Json → Nat
  | [] => 0
  | v :: rest => 1 + jfuel v + jfuelElems rest

/-- Fuel sufficient for `parseFields`. -/
def jfuelFields : List (String × Json) → Nat
  | [] => 0
  | (_, v) :: rest => 1 + jfuel v + jfuelFields rest

end

/-- An option is not-`isSome` exactly when it is `none`. -/
theorem isSome_false_iff {α : Type} {o : Option α} : o.isSome = false ↔ o = none := by
  cases o <;> simp

/-- Member update under lookup: the updated key reads the new value, any
other key is unchanged. -/
theorem jlookup_setField (fs : List (String × Json)) (k key : String) (v : Json) :
    jlookup (setField fs k v) key = if k = key then some v else jlookup fs key := by
  induction fs with
  | nil => simp [setField, jlookup]
  | cons p rest ih =>
    obtain ⟨k0, w⟩ := p
    by_cases h0 : k0 = k
    · subst h0
      by_cases h1 : k0 = key <;> simp [setField, jlookup, h1]
    · by_cases h1 : k0 = key
      · subst h1
        have hk : ¬(k = k0) := fun h => h0 h.symm
        simp [setField, h0, jlookup, hk]
      · simp [setField, h0, jlookup, h1, ih]

/-- A key missing from a field list differs from every member's key. -/
theorem jlookup_eq_none_iff (fs : List (String × Json)) (key : String) :
    jlookup fs key = none ↔ ∀ p ∈ fs, p.1 ≠ key := by
  induction fs with
  | nil => simp [jlookup]
  | cons p rest ih =>
    obtain ⟨k0, w⟩ := p
    by_cases h : k0 = key <;> simp [jlookup, h, ih]

/-- Lookup distributes over append when the key is absent on the left. -/
theorem jlookup_append_of_none (a b : List (String × Json)) (key : String)
    (h : jlookup a key = none) : jlookup (a ++ b) key = jlookup b key := by
  induction a with
  | nil => simp
  | cons p rest ih =>
    obtain ⟨k0, w⟩ := p
    by_cases h0 : k0 = key
    · simp [jlookup, h0] at h
    · simp only [jlookup, h0, if_false] at h
      simpa [jlookup, h0] using ih h

/-- `setField` keeps keys duplicate-free. -/
theorem keysNodup_setField (fs : List (String × Json)) (k : String) (v : Json)
    (h : keysNodup fs = true) : keysNodup (setField fs k v) = true := by
  induction fs with
  | nil => simp [setField, keysNodup, jlookup]
  | cons p rest ih =>
    obtain ⟨k0, w⟩ := p
    simp only [keysNodup, Bool.and_eq_true, Bool.not_eq_true', isSome_false_iff] at h
    by_cases h0 : k0 = k
    · subst h0
      simp [setField, keysNodup, h.1, h.2]
    · simp only [setField, h0, if_false, keysNodup, Bool.and_eq_true, Bool.not_eq_true',
        isSome_false_iff]
      refine ⟨?_, ih h.2⟩
      rw [jlookup_setField]
      have hk : ¬(k = k0) := fun hh => h0 hh.symm
      simp [hk, h.1]

/-- `setField` with a well-formed value keeps member values well-formed. -/
theorem wfFields_setField (fs : List (String × Json)) (k : String) (v : Json)
    (hfs : wfFields fs = true) (hv : wfVal v = true) :
    wfFields (setField fs k v) = true := by
  induction fs with
  | nil => simp [setField, wfFields, hv]
  | cons p rest ih =>
    obtain ⟨k0, w⟩ := p
    simp only [wfFields, Bool.and_eq_true] at hfs
    by_cases h0 : k0 = k
    · subst h0
      simp [setField, wfFields, hv, hfs.2]
    · simp [setField, h0, wfFields, hfs.1, ih hfs.2]

/-- Writing a fresh key appends it. -/
theorem setField_append (fs : List (String × Json)) (k : String) (v : Json)
    (h : jlookup fs k = none) : setField fs k v = fs ++ [(k, v)] := by
  induction fs with
  | nil => simp [setField]
  | cons p rest ih =>
    obtain ⟨k0, w⟩ := p
    by_cases h0 : k0 = k
    · simp [jlookup, h0] at h
    · simp only [jlookup, h0, if_false] at h
      simp [setField, h0, ih h]

/-- Fold of `setField` over a member list, as `parseFields` accumulates. -/
def setFields (acc : List (String × Json)) (fs : List (String × Json)) :
    List (String × Json) :=
  fs.foldl (fun a p => setField a p.1 p.2) acc

/-- Accumulating duplicate-free fresh members is list append. -/
theorem setFields_append (fs : List (String × Json)) :
    ∀ acc, (∀ p ∈ fs, jlookup acc p.1 = none) → keysNodup fs = true →
      setFields acc fs = acc ++ fs := by
  induction fs with
  | nil => intro acc _ _; simp [setFields]
  | cons p rest ih =>
    intro acc hfresh hnd
    obtain ⟨k0, w⟩ := p
    simp only [keysNodup, Bool.and_eq_true, Bool.not_eq_true', isSome_false_iff] at hnd
    have hk0 : jlookup acc k0 = none := hfresh (k0, w) (by simp)
    have step : setFields acc ((k0, w) :: rest) = setFields (acc ++ [(k0, w)]) rest := by
      simp [setFields, List.foldl_cons, setField_append acc k0 w hk0]
    rw [step, ih (acc ++ [(k0, w)]) ?_ hnd.2]
    · simp
    · intro p hp
      have h1 : jlookup acc p.1 = none := hfresh p (by simp [hp])
      have h2 : k0 ≠ p.1 :=
        fun heq2 => ((jlookup_eq_none_iff rest k0).mp hnd.1 p hp) heq2.symm
      rw [jlookup_append_of_none _ _ _ h1]
      simp [jlookup, h2]

/-- Parsing the members of a duplicate-free object from an empty
accumulator returns exactly those members. -/
theorem setFields_nil (fs : List (String × Json)) (hnd : keysNodup fs = true) :
    setFields [] fs = fs := by
  simpa using setFields_append fs [] (fun p _ => rfl) hnd

/-! ## Serialization round-trip: characters and numbers -/

/-- The code of a decimal digit character. -/
theorem digitChar_toNat (d : Nat) (h : d ≤ 9) : (digitChar d).toNat = 48 + d := by
  interval_cases d <;> decide

/-- Reading back a printed decimal digit. -/
theorem digitVal_digitChar (d : Nat) (h : d ≤ 9) : digitVal? (digitChar d) = some d := by
  interval_cases d <;> decide

/-- Reading back a printed hexadecimal digit. -/
theorem hexVal_hexChar (d : Nat) (h : d ≤ 15) : hexVal? (hexChar d) = some d := by
  interval_cases d <;> decide

/-- A digit character differs from any character with a code outside the
digit range. -/
theorem digitChar_ne (d : Nat) (h : d ≤ 9) (c : Char)
    (hc : c.toNat < 48 ∨ 57 < c.toNat) : digitChar d ≠ c := by
  intro heq2
  have := congrArg Char.toNat heq2
  rw [digitChar_toNat d h] at this
  omega

/-- `natChars` ignores the fuel once it exceeds the number. -/
theorem natChars_fuel (n : Nat) : ∀ f g, n < f → n < g → natChars f n = natChars g n := by
  induction n using Nat.strong_induction_on with
  | _ n ih =>
    intro f g hf hg
    match f, g with
    | f + 1, g + 1 =>
      by_cases h : n < 10
      · simp [natChars, h]
      · simp only [natChars, if_neg h]
        rw [ih (n / 10) (by omega) f g (by omega) (by omega)]

/-- Decimal digits of a natural number with canonical fuel. -/
def natRepr (n : Nat) : List Char := natChars (n + 1) n

theorem natRepr_small (n : Nat) (h : n < 10) : natRepr n = [digitChar n] := by
  simp [natRepr, natChars, h]

theorem natRepr_step (n : Nat) (h : 10 ≤ n) :
    natRepr n = natRepr (n / 10) ++ [digitChar (n % 10)] := by
  have : natChars (n + 1) n = natChars n (n / 10) ++ [digitChar (n % 10)] := by
    simp [natChars, Nat.not_lt.mpr h]
  rw [natRepr, this, natChars_fuel (n / 10) n (n / 10 + 1) (by omega) (by omega)]
  rfl

/-- Every character of a printed natural number is a decimal digit. -/
theorem natRepr_digits (n : Nat) : ∀ c ∈ natRepr n, 48 ≤ c.toNat ∧ c.toNat ≤ 57 := by
  induction n using Nat.strong_induction_on with
  | _ n ih =>
    intro c hc
    by_cases h : n < 10
    · rw [natRepr_small n h] at hc
      simp at hc
      subst hc
      rw [digitChar_toNat n (by omega)]
      omega
    · rw [natRepr_step n (by omega)] at hc
      rcases List.mem_append.mp hc with h1 | h1
      · exact ih (n / 10) (by omega) c h1
      · simp at h1
        subst h1
        rw [digitChar_toNat (n % 10) (by omega)]
        omega

theorem natRepr_ne_nil (n : Nat) : natRepr n ≠ [] := by
  by_cases h : n < 10
  · rw [natRepr_small n h]; simp
  · rw [natRepr_step n (by omega)]; simp

/-- The leading digit of a printed number, nonzero for `n ≥ 10`. -/
theorem natRepr_head (n : Nat) :
    ∃ d t, natRepr n = digitChar d :: t ∧ d ≤ 9 ∧ (n ≠ 0 → d ≠ 0) := by
  induction n using Nat.strong_induction_on with
  | _ n ih =>
    by_cases h : n < 10
    · exact ⟨n, [], by rw [natRepr_small n h], by omega, fun hn => hn⟩
    · obtain ⟨d, t, hshape, hd9, hd0⟩ := ih (n / 10) (by omega)
      refine ⟨d, t ++ [digitChar (n % 10)], ?_, hd9, fun _ => hd0 (by omega)⟩
      rw [natRepr_step n (by omega), hshape]
      simp

/-- Accumulator shift of `digitsVal` over an append. -/
theorem digitsVal_append (a : List Char) (acc : Nat) (b : List Char) :
    digitsVal acc (a ++ b) = digitsVal (digitsVal acc a) b := by
  simp [digitsVal, List.foldl_append]

/-- Reading back the printed digits of a natural number. -/
theorem digitsVal_natRepr (n : Nat) :
    ∀ acc, digitsVal acc (natRepr n) = acc * 10 ^ (natRepr n).length + n := by
  induction n using Nat.strong_induction_on with
  | _ n ih =>
    intro acc
    by_cases h : n < 10
    · rw [natRepr_small n h]
      simp [digitsVal, digitChar_toNat n (by omega)]
    · rw [natRepr_step n (by omega), digitsVal_append]
      rw [ih (n / 10) (by omega) acc]
      simp only [digitsVal, List.foldl_cons, List.foldl_nil, List.length_append,
        List.length_cons, List.length_nil]
      rw [digitChar_toNat (n % 10) (by omega)]
      have hmod : 48 + n % 10 - 48 = n % 10 := by omega
      rw [hmod]
      have hpow : 10 ^ ((natRepr (n / 10)).length + (0 + 1)) =
          10 ^ (natRepr (n / 10)).length * 10 := by
        rw [pow_succ]
      rw [hpow]
      have hdm := Nat.div_add_mod n 10
      ring_nf
      omega

/-- The input after a printed number may not continue it: its head is not
a digit, a decimal point or an exponent marker. -/
def numBoundary : List Char → Bool
  | [] => true
  | c :: _ => !(decide (48 ≤ c.toNat ∧ c.toNat ≤ 57)) && !(c = '.') && !(c = 'e') && !(c = 'E')

/-- `takeDigits` splits a digit string from a non-digit continuation. -/
theorem takeDigits_append (a : List Char) (rest : List Char)
    (ha : ∀ c ∈ a, 48 ≤ c.toNat ∧ c.toNat ≤ 57) (hrest : numBoundary rest = true) :
    takeDigits (a ++ rest) = (a, rest) := by
  induction a with
  | nil =>
    cases rest with
    | nil => rfl
    | cons c t =>
      simp only [numBoundary, Bool.and_eq_true, Bool.not_eq_true', decide_eq_false_iff_not] at hrest
      simp [takeDigits, hrest.1.1.1]
  | cons c t ih =>
    have hc := ha c (by simp)
    simp [takeDigits, hc, ih (fun c2 h2 => ha c2 (by simp [h2]))]

/-- Reading back the digit token of a printed natural number. -/
theorem parseNatPart_natRepr (n : Nat) (rest : List Char) (hb : numBoundary rest = true) :
    parseNatPart (natRepr n ++ rest) = some (n, rest) := by
  have htake : takeDigits (natRepr n ++ rest) = (natRepr n, rest) :=
    takeDigits_append (natRepr n) rest (natRepr_digits n) hb
  obtain ⟨d, t, hshape, hd9, hd0⟩ := natRepr_head n
  have h1 : headIs '.' rest = false := by
    cases rest with
    | nil => rfl
    | cons c t2 =>
      simp only [numBoundary, Bool.and_eq_true, Bool.not_eq_true',
        decide_eq_false_iff_not] at hb
      simp [headIs, hb.1.1.2]
  have h2 : headIs 'e' rest = false := by
    cases rest with
    | nil => rfl
    | cons c t2 =>
      simp only [numBoundary, Bool.and_eq_true, Bool.not_eq_true',
        decide_eq_false_iff_not] at hb
      simp [headIs, hb.1.2]
  have h3 : headIs 'E' rest = false := by
    cases rest with
    | nil => rfl
    | cons c t2 =>
      simp only [numBoundary, Bool.and_eq_true, Bool.not_eq_true',
        decide_eq_false_iff_not] at hb
      simp [headIs, hb.2]
  have hval : digitsVal 0 (digitChar d :: t) = n := by
    rw [← hshape, digitsVal_natRepr n 0]
    omega
  have hzero : ¬(digitChar d = '0' ∧ t ≠ []) := by
    rintro ⟨hz, hnil⟩
    have hd : d = 0 := by
      have hzt := congrArg Char.toNat hz
      rw [digitChar_toNat d hd9] at hzt
      have h0 : ('0' : Char).toNat = 48 := by decide
      omega
    by_cases hsmall : n < 10
    · have hsh := hshape
      rw [natRepr_small n hsmall] at hsh
      exact hnil ((List.cons.injEq _ _ _ _).mp hsh).2.symm
    · exact hd0 (by omega) hd
  simp only [parseNatPart]
  rw [htake, hshape]
  simp [hzero, h1, h2, h3, hval]

/-- Reading back a printed integral number. -/
theorem parseNumber_intChars (n : Int) (rest : List Char) (hb : numBoundary rest = true) :
    parseNumber (intChars n ++ rest) = some (.num n, rest) := by
  by_cases hneg : n < 0
  · have hic : intChars n = '-' :: natRepr n.natAbs := by
      simp [intChars, hneg, natRepr]
    rw [hic]
    simp only [List.cons_append, parseNumber, if_pos rfl]
    rw [parseNatPart_natRepr n.natAbs rest hb]
    simp only [Option.map_some']
    have : -(n.natAbs : Int) = n := by omega
    rw [this]
    simp
  · have hic : intChars n = natRepr n.toNat := by
      simp [intChars, hneg, natRepr]
    obtain ⟨d, t, hshape, hd9, _⟩ := natRepr_head n.toNat
    have hdm : digitChar d ≠ '-' := digitChar_ne d hd9 '-' (Or.inl (by decide))
    rw [hic, hshape]
    simp only [List.cons_append, parseNumber]
    rw [if_neg hdm]
    rw [← List.cons_append, ← hshape]
    rw [parseNatPart_natRepr n.toNat rest hb]
    simp only [Option.map_some']
    have hcast : ((n.toNat : Nat) : Int) = n := by omega
    rw [hcast]

/-! ## Serialization round-trip: strings -/

theorem parseStrBody_quote (r : List Char) : parseStrBody ('"' :: r) = some ([], r) := by
  rw [parseStrBody.eq_def]
  simp

theorem parseStrBody_plain (c : Char) (r : List Char) (h1 : c ≠ '"') (h2 : c ≠ '\\')
    (h3 : 32 ≤ c.toNat) :
    parseStrBody (c :: r) = (parseStrBody r).map (fun p => (c :: p.1, p.2)) := by
  rw [parseStrBody.eq_def]
  simp [h1, h2, Nat.not_lt.mpr h3]

theorem parseStrBody_escQuote (r : List Char) :
    parseStrBody ('\\' :: '"' :: r) = (parseStrBody r).map (fun p => ('"' :: p.1, p.2)) := by
  rw [parseStrBody.eq_def]
  simp

theorem parseStrBody_escBackslash (r : List Char) :
    parseStrBody ('\\' :: '\\' :: r) = (parseStrBody r).map (fun p => ('\\' :: p.1, p.2)) := by
  rw [parseStrBody.eq_def]
  simp

theorem parseStrBody_escB (r : List Char) :
    parseStrBody ('\\' :: 'b' :: r) =
      (parseStrBody r).map (fun p => (Char.ofNat 8 :: p.1, p.2)) := by
  rw [parseStrBody.eq_def]
  simp

theorem parseStrBody_escT (r : List Char) :
    parseStrBody ('\\' :: 't' :: r) =
      (parseStrBody r).map (fun p => (Char.ofNat 9 :: p.1, p.2)) := by
  rw [parseStrBody.eq_def]
  simp

theorem parseStrBody_escN (r : List Char) :
    parseStrBody ('\\' :: 'n' :: r) =
      (parseStrBody r).map (fun p => (Char.ofNat 10 :: p.1, p.2)) := by
  rw [parseStrBody.eq_def]
  simp

theorem parseStrBody_escF (r : List Char) :
    parseStrBody ('\\' :: 'f' :: r) =
      (parseStrBody r).map (fun p => (Char.ofNat 12 :: p.1, p.2)) := by
  rw [parseStrBody.eq_def]
  simp

theorem parseStrBody_escR (r : List Char) :
    parseStrBody ('\\' :: 'r' :: r) =
      (parseStrBody r).map (fun p => (Char.ofNat 13 :: p.1, p.2)) := by
  rw [parseStrBody.eq_def]
  simp

theorem parseStrBody_escU (h1 h2 h3 h4 : Char) (r : List Char) (v1 v2 v3 v4 : Nat)
    (e1 : hexVal? h1 = some v1) (e2 : hexVal? h2 = some v2)
    (e3 : hexVal? h3 = some v3) (e4 : hexVal? h4 = some v4) :
    parseStrBody ('\\' :: 'u' :: h1 :: h2 :: h3 :: h4 :: r) =
      if isValidCodePoint (v1 * 4096 + v2 * 256 + v3 * 16 + v4) then
        (parseStrBody r).map
          (fun p => (Char.ofNat (v1 * 4096 + v2 * 256 + v3 * 16 + v4) :: p.1, p.2))
      else none := by
  rw [parseStrBody.eq_def]
  simp [e1, e2, e3, e4]

/-- Reading back an escaped string body up to the closing quote. -/
theorem parseStrBody_escape (s : List Char) (rest : List Char) :
    parseStrBody (escapeChars s ++ '"' :: rest) = some (s, rest) := by
  induction s with
  | nil =>
    simp only [escapeChars, List.nil_append]
    exact parseStrBody_quote rest
  | cons c cs ih =>
    have hstep : escapeChars (c :: cs) ++ '"' :: rest =
        escapeChar c ++ (escapeChars cs ++ '"' :: rest) := by
      simp [escapeChars]
    rw [hstep]
    by_cases h1 : c = '"'
    · subst h1
      simp [escapeChar, parseStrBody_escQuote, ih]
    · by_cases h2 : c = '\\'
      · subst h2
        simp [escapeChar, parseStrBody_escBackslash, ih]
      · by_cases h3 : c.toNat = 8
        · have hc : Char.ofNat 8 = c := by rw [← Char.ofNat_toNat c, h3]
          simp [escapeChar, h1, h2, h3, parseStrBody_escB, ih, hc]
          exact hc
        · by_cases h4 : c.toNat = 9
          · have hc : Char.ofNat 9 = c := by rw [← Char.ofNat_toNat c, h4]
            simp [escapeChar, h1, h2, h3, h4, parseStrBody_escT, ih, hc]
            exact hc
          · by_cases h5 : c.toNat = 10
            · have hc : Char.ofNat 10 = c := by rw [← Char.ofNat_toNat c, h5]
              simp [escapeChar, h1, h2, h3, h4, h5, parseStrBody_escN, ih, hc]
              exact hc
            · by_cases h6 : c.toNat = 12
              · have hc : Char.ofNat 12 = c := by rw [← Char.ofNat_toNat c, h6]
                simp [escapeChar, h1, h2, h3, h4, h5, h6, parseStrBody_escF, ih, hc]
                exact hc
              · by_cases h7 : c.toNat = 13
                · have hc : Char.ofNat 13 = c := by rw [← Char.ofNat_toNat c, h7]
                  simp [escapeChar, h1, h2, h3, h4, h5, h6, h7, parseStrBody_escR, ih, hc]
                  exact hc
                · by_cases h8 : c.toNat < 32
                  · have hesc : escapeChar c = ['\\', 'u', '0', '0',
                        hexChar (c.toNat / 16), hexChar (c.toNat % 16)] := by
                      simp [escapeChar, h1, h2, h3, h4, h5, h6, h7, h8]
                    rw [hesc]
                    simp only [List.cons_append, List.nil_append]
                    rw [parseStrBody_escU '0' '0' (hexChar (c.toNat / 16))
                      (hexChar (c.toNat % 16)) _ 0 0 (c.toNat / 16) (c.toNat % 16)
                      (by decide) (by decide)
                      (hexVal_hexChar _ (by omega)) (hexVal_hexChar _ (by omega))]
                    have hn : 0 * 4096 + 0 * 256 + c.toNat / 16 * 16 + c.toNat % 16 =
                        c.toNat := by omega
                    rw [hn]
                    have hvalid : isValidCodePoint (c.toNat) = true := by
                      simp only [isValidCodePoint, Bool.or_eq_true, decide_eq_true_eq]
                      left
                      omega
                    rw [hvalid, if_pos rfl, ih]
                    simp [Char.ofNat_toNat]
                  · have hesc : escapeChar c = [c] := by
                      simp [escapeChar, h1, h2, h3, h4, h5, h6, h7, h8]
                    rw [hesc]
                    simp only [List.cons_append, List.nil_append]
                    rw [parseStrBody_plain c _ h1 h2 (by omega), ih]
                    rfl

/-! ## Serialization round-trip: values -/

/-- Characters are determined by their code. -/
theorem char_eq_iff_toNat (a b : Char) : a = b ↔ a.toNat = b.toNat :=
  ⟨fun h => by rw [h], fun h => by rw [← Char.ofNat_toNat a, h, Char.ofNat_toNat]⟩

/-- A character with code at least 33 is not JSON whitespace. -/
theorem isWs_eq_false (c : Char) (h : 33 ≤ c.toNat) : isWs c = false := by
  have h32 : ¬(c = ' ') := by
    rw [char_eq_iff_toNat]
    intro hh
    rw [show (' ' : Char).toNat = 32 from rfl] at hh
    omega
  simp only [isWs, Bool.or_eq_false_iff, decide_eq_false_iff_not]
  exact ⟨⟨⟨h32, by omega⟩, by omega⟩, by omega⟩

theorem skipWs_cons (c : Char) (l : List Char) (h : isWs c = false) :
    skipWs (c :: l) = c :: l := by
  simp [skipWs, h]

/-- The structural dispatch characters of `parseVal`, excluded for a digit. -/
theorem digit_head_facts (c : Char) (h48 : 48 ≤ c.toNat) (h57 : c.toNat ≤ 57) :
    isWs c = false ∧ c ≠ 'n' ∧ c ≠ 't' ∧ c ≠ 'f' ∧ c ≠ '"' ∧ c ≠ '[' ∧
      c ≠ Char.ofNat 123 ∧ c ≠ ']' ∧ c ≠ Char.ofNat 125 := by
  refine ⟨isWs_eq_false c (by omega), ?_, ?_, ?_, ?_, ?_, ?_, ?_, ?_⟩ <;>
    (intro hh; subst hh) <;> revert h48 h57 <;> decide

/-- Every serialized value starts with a non-whitespace character that is
not a closing bracket or brace. -/
theorem printVal_head (v : Json) :
    ∃ c t, printVal v = c :: t ∧ isWs c = false ∧ c ≠ ']' ∧ c ≠ Char.ofNat 125 := by
  cases v with
  | null => exact ⟨'n', _, rfl, by decide, by decide, by decide⟩
  | bool b =>
    cases b
    · exact ⟨'f', _, rfl, by decide, by decide, by decide⟩
    · exact ⟨'t', _, rfl, by decide, by decide, by decide⟩
  | num n =>
    by_cases hneg : n < 0
    · refine ⟨'-', natRepr n.natAbs, ?_, by decide, by decide, by decide⟩
      simp [printVal, intChars, hneg, natRepr]
    · obtain ⟨d, t, hshape, hd9, _⟩ := natRepr_head n.toNat
      have hdd := digitChar_toNat d hd9
      obtain ⟨hws, _, _, _, _, _, _, hrb, hob⟩ :=
        digit_head_facts (digitChar d) (by omega) (by omega)
      refine ⟨digitChar d, t, ?_, hws, hrb, hob⟩
      show intChars n = _
      simp [intChars, hneg, natRepr] at hshape ⊢
      exact hshape
  | str s => exact ⟨'"', _, rfl, rfl, by decide, by decide⟩
  | arr es => refine ⟨'[', _, rfl, rfl, by decide, by decide⟩
  | obj fs => exact ⟨Char.ofNat 123, _, rfl, by decide, by decide, by decide⟩

theorem parseVal_null_step (fuel : Nat) (r : List Char) :
    parseVal (fuel + 1) ('n' :: r) =
      (stripPre ['u', 'l', 'l'] r).map (fun r2 => (Json.null, r2)) := by
  rfl

theorem parseVal_true_step (fuel : Nat) (r : List Char) :
    parseVal (fuel + 1) ('t' :: r) =
      (stripPre ['r', 'u', 'e'] r).map (fun r2 => (Json.bool true, r2)) := by
  rfl

theorem parseVal_false_step (fuel : Nat) (r : List Char) :
    parseVal (fuel + 1) ('f' :: r) =
      (stripPre ['a', 'l', 's', 'e'] r).map (fun r2 => (Json.bool false, r2)) := by
  rfl

theorem parseVal_str_step (fuel : Nat) (r : List Char) :
    parseVal (fuel + 1) ('"' :: r) =
      (parseStrBody r).map (fun p => (Json.str ⟨p.1⟩, p.2)) := by
  rfl

theorem parseVal_arr_step (fuel : Nat) (r : List Char) :
    parseVal (fuel + 1) ('[' :: r) =
      (if headIs ']' (skipWs r) then some (Json.arr [], (skipWs r).tail)
       else (parseElems fuel (skipWs r)).map (fun p => (Json.arr p.1, p.2))) := by
  rfl

theorem parseVal_obj_step (fuel : Nat) (r : List Char) :
    parseVal (fuel + 1) (Char.ofNat 123 :: r) =
      (if headIs (Char.ofNat 125) (skipWs r) then some (Json.obj [], (skipWs r).tail)
       else (parseFields fuel [] (skipWs r)).map (fun p => (Json.obj p.1, p.2))) := by
  rfl

theorem parseVal_number_step (fuel : Nat) (c : Char) (r : List Char)
    (hws : isWs c = false) (h1 : c ≠ 'n') (h2 : c ≠ 't') (h3 : c ≠ 'f')
    (h4 : c ≠ '"') (h5 : c ≠ '[') (h6 : c ≠ Char.ofNat 123) :
    parseVal (fuel + 1) (c :: r) = parseNumber (c :: r) := by
  simp only [parseVal.eq_def]
  rw [skipWs_cons _ _ hws]
  simp [h1, h2, h3, h4, h5, h6]

theorem jfuel_pos (v : Json) : 1 ≤ jfuel v := by
  cases v <;> simp [jfuel]

/-- One member-parsing step of `parseFields` after an opening quote. -/
theorem parseFields_quote_step (fuel : Nat) (acc : List (String × Json)) (r : List Char) :
    parseFields (fuel + 1) acc ('"' :: r) =
      (match parseStrBody r with
       | none => none
       | some (kcs, r2) =>
         match skipWs r2 with
         | ':' :: r3 =>
           match parseVal fuel r3 with
           | none => none
           | some (v, r4) =>
             match skipWs r4 with
             | ',' :: r5 => parseFields fuel (setField acc ⟨kcs⟩ v) r5
             | c :: r5 => if c = Char.ofNat 125 then some (setField acc ⟨kcs⟩ v, r5) else none
             | _ => none
         | _ => none) := by
  rfl

/-- One step of `parseElems`. -/
theorem parseElems_step (fuel : Nat) (l : List Char) :
    parseElems (fuel + 1) l =
      (match parseVal fuel l with
       | none => none
       | some (v, r) =>
         match skipWs r with
         | ',' :: r2 => (parseElems fuel r2).map (fun p => (v :: p.1, p.2))
         | ']' :: r2 => some ([v], r2)
         | _ => none) := rfl

/-- Parsing one serialized member reduces to parsing its value. -/
theorem parseFields_member_step (fuel : Nat) (acc : List (String × Json)) (k : String)
    (X : List Char) :
    parseFields (fuel + 1) acc ('"' :: (escapeChars k.data ++ '"' :: (':' :: X))) =
      (match parseVal fuel X with
       | none => none
       | some (v, r4) =>
         match skipWs r4 with
         | ',' :: r5 => parseFields fuel (setField acc k v) r5
         | c :: r5 => if c = Char.ofNat 125 then some (setField acc k v, r5) else none
         | _ => none) := by
  rw [parseFields_quote_step, parseStrBody_escape k.data (':' :: X)]
  rfl

mutual

/-- Parsing a serialized value consumes exactly it, given enough fuel, a
well-formed value and a continuation that cannot extend a number token. -/
theorem parseVal_print : ∀ (fuel : Nat) (v : Json) (rest : List Char),
    jfuel v ≤ fuel → wfVal v = true → numBoundary rest = true →
    parseVal fuel (printVal v ++ rest) = some (v, rest)
  | 0, v, _ => by
    intro hf _ _
    exact absurd hf (by have := jfuel_pos v; omega)
  | fuel + 1, v, rest => by
    intro hf hwf hb
    cases v with
    | null =>
      rw [show printVal .null ++ rest = 'n' :: 'u' :: 'l' :: 'l' :: rest from rfl,
        parseVal_null_step]
      rfl
    | bool b =>
      cases b
      · rw [show printVal (.bool false) ++ rest = 'f' :: 'a' :: 'l' :: 's' :: 'e' :: rest from rfl,
          parseVal_false_step]
        rfl
      · rw [show printVal (.bool true) ++ rest = 't' :: 'r' :: 'u' :: 'e' :: rest from rfl,
          parseVal_true_step]
        rfl
    | num n =>
      by_cases hneg : n < 0
      · have hic : printVal (.num n) = '-' :: natRepr n.natAbs := by
          simp [printVal, intChars, hneg, natRepr]
        rw [hic, List.cons_append,
          parseVal_number_step fuel '-' _ (by decide) (by decide) (by decide) (by decide)
            (by decide) (by decide) (by decide),
          ← List.cons_append, ← hic,
          show printVal (.num n) = intChars n from rfl, parseNumber_intChars n rest hb]
      · obtain ⟨d, t, hshape, hd9, _⟩ := natRepr_head n.toNat
        have hpv : printVal (.num n) = digitChar d :: t := by
          rw [show printVal (.num n) = intChars n from rfl]
          simp only [intChars, if_neg hneg]
          exact hshape
        have hdd := digitChar_toNat d hd9
        obtain ⟨hws, hn2, ht2, hf2, hq2, hlb2, hob2, _, _⟩ :=
          digit_head_facts (digitChar d) (by omega) (by omega)
        rw [hpv, List.cons_append,
          parseVal_number_step fuel _ _ hws hn2 ht2 hf2 hq2 hlb2 hob2,
          ← List.cons_append, ← hpv,
          show printVal (.num n) = intChars n from rfl, parseNumber_intChars n rest hb]
    | str s =>
      have hps : printVal (.str s) ++ rest = '"' :: (escapeChars s.data ++ '"' :: rest) := by
        simp [printVal, printStr]
      rw [hps, parseVal_str_step, parseStrBody_escape]
      rfl
    | arr es =>
      cases es with
      | nil =>
        rw [show printVal (.arr []) ++ rest = '[' :: ']' :: rest from rfl, parseVal_arr_step]
        rfl
      | cons v vs =>
        obtain ⟨c2, t2, hv, hws2, hrb2, _⟩ := printVal_head v
        have hpe : ∃ t3, printElems (v :: vs) = c2 :: t3 := by
          cases vs with
          | nil => exact ⟨t2, by simp [printElems, hv]⟩
          | cons v2 vs2 =>
            exact ⟨t2 ++ ',' :: printElems (v2 :: vs2), by simp [printElems, hv]⟩
        obtain ⟨t3, hpe⟩ := hpe
        have hinput : printVal (.arr (v :: vs)) ++ rest =
            '[' :: (printElems (v :: vs) ++ ']' :: rest) := by
          simp [printVal]
        rw [hinput, parseVal_arr_step, hpe, List.cons_append, skipWs_cons _ _ hws2]
        have hhead : headIs ']' (c2 :: (t3 ++ ']' :: rest)) = false := by
          simp [headIs, hrb2]
        rw [hhead, if_neg (by simp), ← List.cons_append, ← hpe]
        have hfe : jfuelElems (v :: vs) ≤ fuel := by
          have : jfuel (.arr (v :: vs)) = 1 + jfuelElems (v :: vs) := rfl
          omega
        have hwfe : wfElems (v :: vs) = true := by
          have : wfVal (.arr (v :: vs)) = wfElems (v :: vs) := rfl
          rw [← this]
          exact hwf
        rw [parseElems_print fuel (v :: vs) rest (by simp) hfe hwfe]
        rfl
    | obj fs =>
      cases fs with
      | nil =>
        rw [show printVal (.obj []) ++ rest = Char.ofNat 123 :: Char.ofNat 125 :: rest from rfl,
          parseVal_obj_step]
        rfl
      | cons f0 fs2 =>
        obtain ⟨k, v0⟩ := f0
        have hpf : ∃ t3, printFields ((k, v0) :: fs2) = '"' :: t3 := by
          cases fs2 with
          | nil => exact ⟨escapeChars k.data ++ '"' :: ':' :: printVal v0,
              by simp [printFields, printStr]⟩
          | cons f2 fs3 =>
            exact ⟨escapeChars k.data ++ '"' :: ':' :: printVal v0 ++
                ',' :: printFields (f2 :: fs3),
              by simp [printFields, printStr]⟩
        obtain ⟨t3, hpf⟩ := hpf
        have hinput : printVal (.obj ((k, v0) :: fs2)) ++ rest =
            Char.ofNat 123 :: (printFields ((k, v0) :: fs2) ++ Char.ofNat 125 :: rest) := by
          simp [printVal]
        rw [hinput, parseVal_obj_step, hpf, List.cons_append, skipWs_cons _ _ (by decide)]
        have hhead : headIs (Char.ofNat 125) ('"' :: (t3 ++ Char.ofNat 125 :: rest)) = false := by
          simp [headIs]
        rw [hhead, if_neg (by simp), ← List.cons_append, ← hpf]
        have hno : keysNodup ((k, v0) :: fs2) = true ∧ wfFields ((k, v0) :: fs2) = true := by
          have : wfVal (.obj ((k, v0) :: fs2)) =
              (keysNodup ((k, v0) :: fs2) && wfFields ((k, v0) :: fs2)) := rfl
          rw [this] at hwf
          exact ⟨(Bool.and_eq_true _ _).mp hwf |>.1, (Bool.and_eq_true _ _).mp hwf |>.2⟩
        have hff : jfuelFields ((k, v0) :: fs2) ≤ fuel := by
          have : jfuel (.obj ((k, v0) :: fs2)) = 1 + jfuelFields ((k, v0) :: fs2) := rfl
          omega
        rw [parseFields_print fuel [] ((k, v0) :: fs2) rest (by simp) hff hno.2]
        rw [setFields_nil _ hno.1]
        rfl

/-- Parsing serialized array elements up to the closing bracket. -/
theorem parseElems_print : ∀ (fuel : Nat) (vs : List Json) (rest : List Char),
    vs ≠ [] → jfuelElems vs ≤ fuel → wfElems vs = true →
    parseElems fuel (printElems vs ++ ']' :: rest) = some (vs, rest)
  | 0, vs, _ => by
    intro hne hf _
    cases vs with
    | nil => exact absurd rfl hne
    | cons v vs2 =>
      have : jfuelElems (v :: vs2) = 1 + jfuel v + jfuelElems vs2 := rfl
      omega
  | fuel + 1, vs, rest => by
    intro hne hf hwf
    cases vs with
    | nil => exact absurd rfl hne
    | cons v vs2 =>
      have hfv : jfuel v ≤ fuel ∧ jfuelElems vs2 ≤ fuel := by
        have : jfuelElems (v :: vs2) = 1 + jfuel v + jfuelElems vs2 := rfl
        omega
      have hwfv : wfVal v = true ∧ wfElems vs2 = true := by
        have : wfElems (v :: vs2) = (wfVal v && wfElems vs2) := rfl
        rw [this] at hwf
        exact ⟨(Bool.and_eq_true _ _).mp hwf |>.1, (Bool.and_eq_true _ _).mp hwf |>.2⟩
      cases vs2 with
      | nil =>
        have hinput : printElems [v] ++ ']' :: rest = printVal v ++ ']' :: rest := by
          simp [printElems]
        rw [hinput, parseElems_step]
        rw [parseVal_print fuel v (']' :: rest) hfv.1 hwfv.1 rfl]
        rfl
      | cons v2 vs3 =>
        have hinput : printElems (v :: v2 :: vs3) ++ ']' :: rest =
            printVal v ++ ',' :: (printElems (v2 :: vs3) ++ ']' :: rest) := by
          simp [printElems]
        rw [hinput, parseElems_step]
        rw [parseVal_print fuel v (',' :: (printElems (v2 :: vs3) ++ ']' :: rest))
          hfv.1 hwfv.1 rfl]
        show (parseElems fuel (printElems (v2 :: vs3) ++ ']' :: rest)).map
            (fun p => (v :: p.1, p.2)) = some (v :: v2 :: vs3, rest)
        rw [parseElems_print fuel (v2 :: vs3) rest (by simp) hfv.2 hwfv.2]
        rfl

/-- Parsing serialized object members up to the closing brace, through the
`setField` accumulator. -/
theorem parseFields_print : ∀ (fuel : Nat) (acc fs : List (String × Json)) (rest : List Char),
    fs ≠ [] → jfuelFields fs ≤ fuel → wfFields fs = true →
    parseFields fuel acc (printFields fs ++ Char.ofNat 125 :: rest) =
      some (setFields acc fs, rest)
  | 0, _, fs, _ => by
    intro hne hf _
    cases fs with
    | nil => exact absurd rfl hne
    | cons f0 fs2 =>
      obtain ⟨k, v⟩ := f0
      have : jfuelFields ((k, v) :: fs2) = 1 + jfuel v + jfuelFields fs2 := rfl
      omega
  | fuel + 1, acc, fs, rest => by
    intro hne hf hwf
    cases fs with
    | nil => exact absurd rfl hne
    | cons f0 fs2 =>
      obtain ⟨k, v⟩ := f0
      have hfv : jfuel v ≤ fuel ∧ jfuelFields fs2 ≤ fuel := by
        have : jfuelFields ((k, v) :: fs2) = 1 + jfuel v + jfuelFields fs2 := rfl
        omega
      have hwfv : wfVal v = true ∧ wfFields fs2 = true := by
        have : wfFields ((k, v) :: fs2) = (wfVal v && wfFields fs2) := rfl
        rw [this] at hwf
        exact ⟨(Bool.and_eq_true _ _).mp hwf |>.1, (Bool.and_eq_true _ _).mp hwf |>.2⟩
      cases fs2 with
      | nil =>
        have hinput : printFields [(k, v)] ++ Char.ofNat 125 :: rest =
            '"' :: (escapeChars k.data ++
              '"' :: (':' :: (printVal v ++ Char.ofNat 125 :: rest))) := by
          simp [printFields, printStr]
        rw [hinput, parseFields_member_step]
        rw [parseVal_print fuel v (Char.ofNat 125 :: rest) hfv.1 hwfv.1 rfl]
        rfl
      | cons f2 fs3 =>
        have hinput : printFields ((k, v) :: f2 :: fs3) ++ Char.ofNat 125 :: rest =
            '"' :: (escapeChars k.data ++ '"' :: (':' :: (printVal v ++
              ',' :: (printFields (f2 :: fs3) ++ Char.ofNat 125 :: rest)))) := by
          obtain ⟨k2, v2⟩ := f2
          simp [printFields, printStr]
        rw [hinput, parseFields_member_step]
        rw [parseVal_print fuel v
          (',' :: (printFields (f2 :: fs3) ++ Char.ofNat 125 :: rest)) hfv.1 hwfv.1 rfl]
        show parseFields fuel (setField acc k v)
            (printFields (f2 :: fs3) ++ Char.ofNat 125 :: rest) =
          some (setFields acc ((k, v) :: f2 :: fs3), rest)
        rw [parseFields_print fuel (setField acc k v) (f2 :: fs3) rest (by simp)
          hfv.2 hwfv.2]
        simp [setFields]

end

/-- Parsed numbers are number values. -/
theorem parseNumber_shape (l : List Char) (v : Json) (r : List Char)
    (h : parseNumber l = some (v, r)) : ∃ n, v = .num n := by
  cases l with
  | nil => exact Option.noConfusion h
  | cons c rest =>
    by_cases hc : c = '-'
    · rw [show parseNumber (c :: rest) =
          (parseNatPart rest).map (fun p => (.num (-(p.1 : Int)), p.2)) from by
        simp [parseNumber, hc]] at h
      obtain ⟨p, _, hv⟩ := Option.map_eq_some'.mp h
      injection hv with hv1 _
      exact ⟨-(p.1 : Int), hv1.symm⟩
    · rw [show parseNumber (c :: rest) =
          (parseNatPart (c :: rest)).map (fun p => (.num (p.1 : Int), p.2)) from by
        simp [parseNumber, hc]] at h
      obtain ⟨p, _, hv⟩ := Option.map_eq_some'.mp h
      injection hv with hv1 _
      exact ⟨(p.1 : Int), hv1.symm⟩

/-- One step of `parseFields`, fully unfolded. -/
theorem parseFields_step (fuel : Nat) (acc : List (String × Json)) (l : List Char) :
    parseFields (fuel + 1) acc l =
      (match skipWs l with
       | '"' :: r =>
         match parseStrBody r with
         | none => none
         | some (kcs, r2) =>
           match skipWs r2 with
           | ':' :: r3 =>
             match parseVal fuel r3 with
             | none => none
             | some (v, r4) =>
               match skipWs r4 with
               | ',' :: r5 => parseFields fuel (setField acc ⟨kcs⟩ v) r5
               | c :: r5 => if c = Char.ofNat 125 then some (setField acc ⟨kcs⟩ v, r5) else none
               | _ => none
           | _ => none
       | _ => none) := rfl

mutual

/-- `JSON.parse` produces only well-formed values. -/
theorem parseVal_wf : ∀ (fuel : Nat) (l : List Char) (v : Json) (r : List Char),
    parseVal fuel l = some (v, r) → wfVal v = true
  | 0, l, v, r => by
    intro h
    rw [show parseVal 0 l = none from rfl] at h
    exact Option.noConfusion h
  | fuel + 1, l, v, r => by
    intro h
    rw [parseVal.eq_def] at h
    iterate 14 all_goals try first
      | exact Option.noConfusion h
      | split at h
    all_goals try (obtain ⟨w, _, hv⟩ := Option.map_eq_some'.mp h
                   injection hv with hv1 _
                   exact hv1 ▸ rfl)
    all_goals try (obtain ⟨n, hn⟩ := parseNumber_shape _ _ _ h
                   exact hn ▸ rfl)
    · dsimp only at h
      split at h
      · injection h with hp
        injection hp with hv1 _
        exact hv1 ▸ rfl
      · obtain ⟨p, hp, hv⟩ := Option.map_eq_some'.mp h
        injection hv with hv1 _
        rw [← hv1]
        exact parseElems_wf _ _ p.1 p.2 hp
    · dsimp only at h
      split at h
      · injection h with hp
        injection hp with hv1 _
        exact hv1 ▸ rfl
      · obtain ⟨p, hp, hv⟩ := Option.map_eq_some'.mp h
        injection hv with hv1 _
        rw [← hv1]
        have hw := parseFields_wf _ [] _ p.1 p.2 rfl rfl hp
        show (keysNodup p.1 && wfFields p.1) = true
        rw [hw.1, hw.2]
        rfl

/-- Array elements parsed by `JSON.parse` are well-formed. -/
theorem parseElems_wf : ∀ (fuel : Nat) (l : List Char) (vs : List Json) (r : List Char),
    parseElems fuel l = some (vs, r) → wfElems vs = true
  | 0, l, vs, r => by
    intro h
    rw [show parseElems 0 l = none from rfl] at h
    exact Option.noConfusion h
  | fuel + 1, l, vs, r => by
    intro h
    rw [parseElems_step] at h
    rcases hpv : parseVal fuel l with _ | ⟨v0, r0⟩ <;> rw [hpv] at h
    · exact Option.noConfusion h
    · have hwv : wfVal v0 = true := parseVal_wf fuel l v0 r0 hpv
      have h2 : (match skipWs r0 with
          | ',' :: r2 => (parseElems fuel r2).map (fun p => (v0 :: p.1, p.2))
          | ']' :: r2 => some ([v0], r2)
          | _ => none) = some (vs, r) := h
      split at h2
      · obtain ⟨p, hp, hv⟩ := Option.map_eq_some'.mp h2
        injection hv with hv1 _
        rw [← hv1]
        show (wfVal v0 && wfElems p.1) = true
        rw [hwv, parseElems_wf _ _ p.1 p.2 hp]
        rfl
      · injection h2 with hp
        injection hp with hv1 _
        rw [← hv1]
        show (wfVal v0 && wfElems []) = true
        rw [hwv]
        rfl
      · exact Option.noConfusion h2

/-- Object members parsed by `JSON.parse` are duplicate-free and
well-formed, given a duplicate-free well-formed accumulator. -/
theorem parseFields_wf : ∀ (fuel : Nat) (acc : List (String × Json)) (l : List Char)
    (fs : List (String × Json)) (r : List Char),
    keysNodup acc = true → wfFields acc = true →
    parseFields fuel acc l = some (fs, r) → keysNodup fs = true ∧ wfFields fs = true
  | 0, acc, l, fs, r => by
    intro _ _ h
    rw [show parseFields 0 acc l = none from rfl] at h
    exact Option.noConfusion h
  | fuel + 1, acc, l, fs, r => by
    intro hnd hwa h
    rw [parseFields_step] at h
    rcases hsk : skipWs l with _ | ⟨c, rest⟩ <;> rw [hsk] at h
    · exact Option.noConfusion h
    · by_cases hc : c = '"'
      · subst hc
        have h2 : (match parseStrBody rest with
            | none => none
            | some (kcs, r2) =>
              match skipWs r2 with
              | ':' :: r3 =>
                match parseVal fuel r3 with
                | none => none
                | some (v, r4) =>
                  match skipWs r4 with
                  | ',' :: r5 => parseFields fuel (setField acc ⟨kcs⟩ v) r5
                  | c :: r5 =>
                    if c = Char.ofNat 125 then some (setField acc ⟨kcs⟩ v, r5) else none
                  | _ => none
              | _ => none) = some (fs, r) := h
        clear h
        rcases hsb : parseStrBody rest with _ | ⟨kcs, r2⟩ <;> rw [hsb] at h2
        · exact Option.noConfusion h2
        · have h3 : (match skipWs r2 with
              | ':' :: r3 =>
                match parseVal fuel r3 with
                | none => none
                | some (v, r4) =>
                  match skipWs r4 with
                  | ',' :: r5 => parseFields fuel (setField acc ⟨kcs⟩ v) r5
                  | c :: r5 =>
                    if c = Char.ofNat 125 then some (setField acc ⟨kcs⟩ v, r5) else none
                  | _ => none
              | _ => none) = some (fs, r) := h2
          clear h2
          split at h3
          · rcases hpv : parseVal fuel _ with _ | ⟨v4, r4⟩ <;> rw [hpv] at h3
            · exact Option.noConfusion h3
            · have hacc2 : keysNodup (setField acc ⟨kcs⟩ v4) = true :=
                keysNodup_setField acc ⟨kcs⟩ v4 hnd
              have hacc3 : wfFields (setField acc ⟨kcs⟩ v4) = true :=
                wfFields_setField acc ⟨kcs⟩ v4 hwa (parseVal_wf fuel _ v4 r4 hpv)
              have h4 : (match skipWs r4 with
                  | ',' :: r5 => parseFields fuel (setField acc ⟨kcs⟩ v4) r5
                  | c :: r5 =>
                    if c = Char.ofNat 125 then some (setField acc ⟨kcs⟩ v4, r5) else none
                  | _ => none) = some (fs, r) := h3
              clear h3
              split at h4
              · exact parseFields_wf fuel (setField acc ⟨kcs⟩ v4) _ fs r hacc2 hacc3 h4
              · split at h4
                · injection h4 with hp
                  injection hp with hv1 _
                  rw [← hv1]
                  exact ⟨hacc2, hacc3⟩
                · exact Option.noConfusion h4
              · exact Option.noConfusion h4
          · exact Option.noConfusion h3
      · have hnone : (match c :: rest with
            | '"' :: r =>
              match parseStrBody r with
              | none => none
              | some (kcs, r2) =>
                match skipWs r2 with
                | ':' :: r3 =>
                  match parseVal fuel r3 with
                  | none => none
                  | some (v, r4) =>
                    match skipWs r4 with
                    | ',' :: r5 => parseFields fuel (setField acc ⟨kcs⟩ v) r5
                    | c :: r5 =>
                      if c = Char.ofNat 125 then some (setField acc ⟨kcs⟩ v, r5) else none
                    | _ => none
                | _ => none
            | _ => none) = none := by
          simp [hc]
        rw [hnone] at h
        exact Option.noConfusion h

end

/-- A printed natural number is nonempty. -/
theorem natRepr_length_pos (n : Nat) : 1 ≤ (natRepr n).length := by
  by_cases h : n < 10
  · rw [natRepr_small n h]
    simp
  · rw [natRepr_step n (by omega)]
    simp

mutual

/-- The fuel needed to reparse a value is at most its printed length. -/
theorem jfuel_le_len : ∀ v : Json, jfuel v ≤ (printVal v).length
  | .null => by simp [jfuel, printVal]
  | .bool b => by cases b <;> simp [jfuel, printVal]
  | .num n => by
    show 1 ≤ (intChars n).length
    by_cases h : n < 0 <;> simp only [intChars, h, if_true, if_false]
    · simp
    · exact natRepr_length_pos n.toNat
  | .str s => by
    show 1 ≤ (printStr s).length
    simp [printStr]
  | .arr es => by
    have h := jfuelElems_le_len es
    show 1 + jfuelElems es ≤ ('[' :: printElems es ++ [']']).length
    simp only [List.cons_append, List.length_cons, List.length_append, List.length_cons,
      List.length_nil]
    omega
  | .obj fs => by
    have h := jfuelFields_le_len fs
    show 1 + jfuelFields fs ≤ (Char.ofNat 123 :: printFields fs ++ [Char.ofNat 125]).length
    simp only [List.cons_append, List.length_cons, List.length_append, List.length_nil]
    omega

theorem jfuelElems_le_len : ∀ vs : List Json, jfuelElems vs ≤ (printElems vs).length + 1
  | [] => by simp [jfuelElems]
  | [v] => by
    have h := jfuel_le_len v
    show 1 + jfuel v + 0 ≤ (printVal v).length + 1
    omega
  | v :: v2 :: vs => by
    have h1 := jfuel_le_len v
    have h2 := jfuelElems_le_len (v2 :: vs)
    show 1 + jfuel v + jfuelElems (v2 :: vs) ≤
      (printVal v ++ ',' :: printElems (v2 :: vs)).length + 1
    simp only [List.length_append, List.length_cons]
    omega

theorem jfuelFields_le_len : ∀ fs : List (String × Json),
    jfuelFields fs ≤ (printFields fs).length + 1
  | [] => by simp [jfuelFields]
  | [(k, v)] => by
    have h := jfuel_le_len v
    show 1 + jfuel v + 0 ≤ (printStr k ++ ':' :: printVal v).length + 1
    simp only [List.length_append, List.length_cons]
    omega
  | (k, v) :: f2 :: fs => by
    have h1 := jfuel_le_len v
    have h2 := jfuelFields_le_len (f2 :: fs)
    show 1 + jfuel v + jfuelFields (f2 :: fs) ≤
      (printStr k ++ ':' :: printVal v ++ ',' :: printFields (f2 :: fs)).length + 1
    simp only [List.length_append, List.length_cons]
    omega

end

/-- `JSON.parse` inverts `JSON.stringify` on well-formed values: the
serialize-then-deserialize round trip of the code is the identity. -/
theorem jsonParse_stringify (v : Json) (hwf : wfVal v = true) :
    jsonParse (jsonStringify v) = .ok v := by
  have hdata : (jsonStringify v).data = printVal v := rfl
  have hfu : jfuel v ≤ (printVal v).length + 1 :=
    le_trans (jfuel_le_len v) (by omega)
  have hp : parseVal ((printVal v).length + 1) (printVal v ++ []) = some (v, []) :=
    parseVal_print _ v [] hfu hwf rfl
  rw [List.append_nil] at hp
  simp only [jsonParse, hdata, hp]
  rfl

/-- `jsonParse` only returns well-formed values. -/
theorem jsonParse_wf (s : String) (v : Json) (h : jsonParse s = .ok v) :
    wfVal v = true := by
  simp only [jsonParse] at h
  rcases hp : parseVal (s.data.length + 1) s.data with _ | ⟨v2, rest⟩ <;> rw [hp] at h
  · exact Except.noConfusion h
  · have h2 : (if skipWs rest = [] then (Except.ok v2 : Except JsErrorVal Json)
        else Except.error jsonSyntaxError) = Except.ok v := h
    by_cases hw : skipWs rest = []
    · rw [if_pos hw] at h2
      injection h2 with hv
      rw [← hv]
      exact parseVal_wf _ _ v2 rest hp
    · rw [if_neg hw] at h2
      exact Except.noConfusion h2

/-! ## `new Date(string)` and `toISOString`: the ECMAScript date model

The code rewrites each challenge's `kickoffTime` through
`new Date(x).toISOString().split(".")[0] + "Z"`.  `JsDate` models a valid
Date's UTC components; `parseISODate` models the ECMAScript Date Time
String Format parser (`YYYY-MM-DD[THH:mm[:ss[.s+]]]` with a `Z` or
`±HH:MM` designator, expanded `±YYYYYY` years, `T24:00`, day-in-month
validation, and the `8.64e15` ms `TimeClip`).  Outside the modelled
subset (and mapped to an invalid date here): engine-specific legacy
formats, date-times without a UTC designator (host-timezone dependent)
and non-string constructor coercions. -/

/-- The UTC components of a valid JavaScript `Date`. -/
structure JsDate where
  year : Int
  month : Nat
  day : Nat
  hour : Nat
  minute : Nat
  second : Nat
  millis : Nat
deriving Repr, DecidableEq

/-- Proleptic Gregorian leap year. -/
def isLeapYear (y : Int) : Bool := y % 4 = 0 && (y % 100 ≠ 0 || y % 400 = 0)

def daysInMonth (y : Int) (m : Nat) : Nat :=
  if m = 2 then (if isLeapYear y then 29 else 28)
  else if m = 4 ∨ m = 6 ∨ m = 9 ∨ m = 11 then 30
  else 31

/-- Successor civil day (for a positive timezone-offset carry). -/
def nextCivilDay : Int × Nat × Nat → Int × Nat × Nat
  | (y, m, d) =>
    if d < daysInMonth y m then (y, m, d + 1)
    else if m < 12 then (y, m + 1, 1)
    else (y + 1, 1, 1)

/-- Predecessor civil day (for a negative timezone-offset borrow). -/
def prevCivilDay : Int × Nat × Nat → Int × Nat × Nat
  | (y, m, d) =>
    if 1 < d then (y, m, d - 1)
    else if 1 < m then (y, m - 1, daysInMonth y (m - 1))
    else (y - 1, 12, 31)

/-- Days from the epoch 1970-01-01 (the arithmetic of ECMAScript
`MakeDay`, in Hinnant's closed form with floor division). -/
def daysFromCivil (y : Int) (m d : Nat) : Int :=
  let y2 : Int := if m ≤ 2 then y - 1 else y
  let era : Int := y2.fdiv 400
  let yoe : Int := y2 - era * 400
  let mp : Nat := (m + 9) % 12
  let doy : Int := (153 * (mp : Int) + 2) / 5 + (d : Int) - 1
  let doe : Int := yoe * 365 + yoe.fdiv 4 - yoe.fdiv 100 + doy
  era * 146097 + doe - 719468

/-- The Date's time value: milliseconds since the epoch. -/
def epochMillis (d : JsDate) : Int :=
  daysFromCivil d.year d.month d.day * 86400000 +
    ((d.hour * 3600000 + d.minute * 60000 + d.second * 1000 + d.millis : Nat) : Int)

/-- The ECMAScript `TimeClip` bound, `8.64e15` ms. -/
def maxTimeValue : Int := 8640000000000000

/-- Validity of constructed date components: ranges, the `TimeClip` range
check, and a year bound.  The component re-checks after the offset carry
are implied by the carry step, and the year bound by the clip; both are
kept so that validity holds by construction. -/
def jsDateOk (d : JsDate) : Bool :=
  1 ≤ d.month && d.month ≤ 12 && 1 ≤ d.day && d.day ≤ daysInMonth d.year d.month &&
  d.hour ≤ 23 && d.minute ≤ 59 && d.second ≤ 59 && d.millis ≤ 999 &&
  d.year.natAbs ≤ 399999 &&
  (epochMillis d).natAbs ≤ 8640000000000000

/-- ECMAScript date construction from parsed literal components: validate
the literal ranges (`T24:00` only as midnight), apply the timezone offset
(shifting the civil day at most once), and clip. -/
def mkJsDate (y : Int) (mo dy h mi s ms : Nat) (offset : Int) : Option JsDate :=
  if 1 ≤ mo ∧ mo ≤ 12 ∧ 1 ≤ dy ∧ dy ≤ daysInMonth y mo ∧
      (h ≤ 23 ∨ (h = 24 ∧ mi = 0 ∧ s = 0 ∧ ms = 0)) ∧ mi ≤ 59 ∧ s ≤ 59 ∧ ms ≤ 999 then
    let tm : Int := (h : Int) * 60 + (mi : Int) - offset
    let adj : (Int × Nat × Nat) × Int :=
      if tm < 0 then (prevCivilDay (y, mo, dy), tm + 1440)
      else if 1440 ≤ tm then (nextCivilDay (y, mo, dy), tm - 1440)
      else ((y, mo, dy), tm)
    let date : JsDate :=
      ⟨adj.1.1, adj.1.2.1, adj.1.2.2, (adj.2 / 60).toNat, (adj.2 % 60).toNat, s, ms⟩
    if jsDateOk date then some date else none
  else none

/-- Read exactly `k` decimal digits. -/
def readDigits : Nat → Nat → List Char → Option (Nat × List Char)
  | 0, acc, l => some (acc, l)
  | _ + 1, _, [] => none
  | k + 1, acc, c :: r =>
    match digitVal? c with
    | some d => readDigits k (acc * 10 + d) r
    | none => none

/-- The year of the format: `YYYY` or expanded `±YYYYYY` (negative zero
year rejected). -/
def parseYearPart (l : List Char) : Option (Int × List Char) :=
  match l with
  | [] => none
  | c :: r =>
    if c = '+' then (readDigits 6 0 r).map (fun p => ((p.1 : Int), p.2))
    else if c = '-' then
      match readDigits 6 0 r with
      | some (n, rest) => if n = 0 then none else some (-(n : Int), rest)
      | none => none
    else (readDigits 4 0 (c :: r)).map (fun p => ((p.1 : Int), p.2))

/-- Optional `-MM[-DD]`, defaulting the month and day to 1. -/
def parseMonthDay : List Char → Option (Nat × Nat × List Char)
  | '-' :: r =>
    (match readDigits 2 0 r with
     | some (mo, r2) =>
       match r2 with
       | '-' :: r3 => (readDigits 2 0 r3).map (fun p => (mo, p.1, p.2))
       | _ => some (mo, 1, r2)
     | none => none)
  | l => some (1, 1, l)

/-- Optional fraction after the seconds: one or more digits, of which the
first three give the milliseconds. -/
def parseFrac : List Char → Option (Nat × List Char)
  | '.' :: r =>
    (match takeDigits r with
     | ([], _) => none
     | ([d1], rest) => some ((d1.toNat - 48) * 100, rest)
     | ([d1, d2], rest) => some ((d1.toNat - 48) * 100 + (d2.toNat - 48) * 10, rest)
     | (d1 :: d2 :: d3 :: _, rest) =>
       some ((d1.toNat - 48) * 100 + (d2.toNat - 48) * 10 + (d3.toNat - 48), rest))
  | l => some (0, l)

/-- Optional `:ss[.s+]` after the minutes. -/
def parseSecFrac : List Char → Option (Nat × Nat × List Char)
  | ':' :: r =>
    (match readDigits 2 0 r with
     | some (s, r2) => (parseFrac r2).map (fun p => (s, p.1, p.2))
     | none => none)
  | l => some (0, 0, l)

/-- A `±HH:MM` timezone offset magnitude in minutes. -/
def parseOffsetMag (l : List Char) : Option (Nat × List Char) :=
  match readDigits 2 0 l with
  | some (oh, r) =>
    match r with
    | ':' :: r2 =>
      match readDigits 2 0 r2 with
      | some (om, r3) => if oh ≤ 23 ∧ om ≤ 59 then some (oh * 60 + om, r3) else none
      | none => none
    | _ => none
  | none => none

/-- The UTC designator: `Z` or `±HH:MM`.  A date-time without a
designator is local time, host-timezone dependent and outside the
modelled subset. -/
def parseTZ : List Char → Option (Int × List Char)
  | 'Z' :: r => some (0, r)
  | '+' :: r => (parseOffsetMag r).map (fun p => ((p.1 : Int), p.2))
  | '-' :: r => (parseOffsetMag r).map (fun p => (-(p.1 : Int), p.2))
  | _ => none

/-- `HH:mm[:ss[.s+]]` followed by the designator. -/
def parseTimePartTZ (l : List Char) : Option (Nat × Nat × Nat × Nat × Int × List Char) :=
  match readDigits 2 0 l with
  | some (h, r) =>
    match r with
    | ':' :: r2 =>
      match readDigits 2 0 r2 with
      | some (mi, r3) =>
        match parseSecFrac r3 with
        | some (sec, ms, r4) =>
          match parseTZ r4 with
          | some (off, r5) => some (h, mi, sec, ms, off, r5)
          | none => none
        | none => none
      | none => none
    | _ => none
  | none => none

/-- The modelled `new Date(string)` ISO parser; `none` is an invalid
date, whose `toISOString` throws `RangeError`. -/
def parseISODate (l : List Char) : Option JsDate :=
  match parseYearPart l with
  | none => none
  | some (y, r) =>
    match parseMonthDay r with
    | none => none
    | some (mo, dy, r2) =>
      match r2 with
      | [] => mkJsDate y mo dy 0 0 0 0 0
      | 'T' :: r3 =>
        (match parseTimePartTZ r3 with
         | some (h, mi, sec, ms, off, r4) =>
           if r4 = [] then mkJsDate y mo dy h mi sec ms off else none
         | none => none)
      | _ => none

/-- `new Date(x)` on a challenge's `kickoffTime` value (`none` argument
is JavaScript `undefined`).  Modelled subset: string inputs through the
ISO parser; everything else (numbers, `null`, booleans, objects — which
JavaScript coerces) is an invalid date here. -/
def jsNewDate (v : Option Json) : Option JsDate :=
  match v with
  | some (Json.str s) => parseISODate s.data
  | _ => none

/-- Fixed-width decimal fields. -/
def pad2 (n : Nat) : List Char := [digitChar (n / 10 % 10), digitChar (n % 10)]

def pad3 (n : Nat) : List Char :=
  [digitChar (n / 100 % 10), digitChar (n / 10 % 10), digitChar (n % 10)]

def pad4 (n : Nat) : List Char :=
  [digitChar (n / 1000 % 10), digitChar (n / 100 % 10), digitChar (n / 10 % 10),
   digitChar (n % 10)]

def pad6 (n : Nat) : List Char :=
  [digitChar (n / 100000 % 10), digitChar (n / 10000 % 10), digitChar (n / 1000 % 10),
   digitChar (n / 100 % 10), digitChar (n / 10 % 10), digitChar (n % 10)]

/-- `toISOString`'s year: four digits, or the expanded `±YYYYYY` form
outside 0000–9999. -/
def fmtYear (y : Int) : List Char :=
  if 0 ≤ y ∧ y ≤ 9999 then pad4 y.toNat
  else if y < 0 then '-' :: pad6 y.natAbs
  else '+' :: pad6 y.toNat

/-- The whole-second prefix of `toISOString`. -/
def fmt19 (d : JsDate) : List Char :=
  fmtYear d.year ++ '-' :: pad2 d.month ++ '-' :: pad2 d.day ++
    'T' :: pad2 d.hour ++ ':' :: pad2 d.minute ++ ':' :: pad2 d.second

/-- `Date.prototype.toISOString` (on a valid date). -/
def toISOString (d : JsDate) : String := ⟨fmt19 d ++ '.' :: pad3 d.millis ++ ['Z']⟩

/-- JavaScript `s.split(".")[0]`: the prefix before the first dot. -/
def splitDotHead : List Char → List Char
  | [] => []
  | c :: r => if c = '.' then [] else c :: splitDotHead r

/-- The kickoff-time rewrite of the code:
`new Date(x).toISOString().split(".")[0] + "Z"`. -/
def normalizedKickoff (d : JsDate) : String :=
  ⟨splitDotHead (toISOString d).data ++ ['Z']⟩

example : parseISODate "2024-05-01T12:00:00.123Z".data =
    some ⟨2024, 5, 1, 12, 0, 0, 123⟩ := by rfl
example : parseISODate "2024-05-01".data = some ⟨2024, 5, 1, 0, 0, 0, 0⟩ := by rfl
example : parseISODate "2024-02-30T00:00:00Z".data = none := by rfl
example : parseISODate "2024-05-01T24:00:00Z".data = some ⟨2024, 5, 2, 0, 0, 0, 0⟩ := by rfl
example : parseISODate "2024-05-01T01:30:00+02:00".data =
    some ⟨2024, 4, 30, 23, 30, 0, 0⟩ := by rfl
example : parseISODate "+010000-01-01T00:00:00Z".data =
    some ⟨10000, 1, 1, 0, 0, 0, 0⟩ := by rfl
example : parseISODate "0000-01-01T00:30:00+01:00".data =
    some ⟨-1, 12, 31, 23, 30, 0, 0⟩ := by rfl
example : parseISODate "garbage".data = none := by rfl
example : parseISODate "2024-05-01T12:00:00".data = none := by rfl
example : normalizedKickoff ⟨2024, 5, 1, 12, 0, 0, 123⟩ = "2024-05-01T12:00:00Z" := by rfl

theorem readDigits_zero (acc : Nat) (l : List Char) : readDigits 0 acc l = some (acc, l) := rfl

theorem readDigits_cons (k acc : Nat) (c : Char) (r : List Char) (d : Nat)
    (hd : digitVal? c = some d) :
    readDigits (k + 1) acc (c :: r) = readDigits k (acc * 10 + d) r := by
  simp [readDigits, hd]

/-- Reading back a two-digit field. -/
theorem readDigits_pad2 (n : Nat) (hn : n ≤ 99) (acc : Nat) (r : List Char) :
    readDigits 2 acc (pad2 n ++ r) = some (acc * 100 + n, r) := by
  show readDigits 2 acc (digitChar (n / 10 % 10) :: digitChar (n % 10) :: r) = _
  rw [show (2 : Nat) = 1 + 1 from rfl,
    readDigits_cons _ _ _ _ _ (digitVal_digitChar _ (by omega)),
    readDigits_cons _ _ _ _ _ (digitVal_digitChar _ (by omega)),
    readDigits_zero]
  have : (acc * 10 + n / 10 % 10) * 10 + n % 10 = acc * 100 + n := by omega
  rw [this]

/-- Reading back a four-digit field. -/
theorem readDigits_pad4 (n : Nat) (hn : n ≤ 9999) (r : List Char) :
    readDigits 4 0 (pad4 n ++ r) = some (n, r) := by
  show readDigits 4 0 (digitChar (n / 1000 % 10) :: digitChar (n / 100 % 10) ::
    digitChar (n / 10 % 10) :: digitChar (n % 10) :: r) = _
  rw [show (4 : Nat) = 3 + 1 from rfl,
    readDigits_cons _ _ _ _ _ (digitVal_digitChar _ (by omega))]
  rw [show (3 : Nat) = 2 + 1 from rfl,
    readDigits_cons _ _ _ _ _ (digitVal_digitChar _ (by omega))]
  rw [show (2 : Nat) = 1 + 1 from rfl,
    readDigits_cons _ _ _ _ _ (digitVal_digitChar _ (by omega)),
    readDigits_cons _ _ _ _ _ (digitVal_digitChar _ (by omega)),
    readDigits_zero]
  have : (((0 * 10 + n / 1000 % 10) * 10 + n / 100 % 10) * 10 + n / 10 % 10) * 10 + n % 10
      = n := by omega
  rw [this]

/-- Reading back a six-digit field. -/
theorem readDigits_pad6 (n : Nat) (hn : n ≤ 999999) (r : List Char) :
    readDigits 6 0 (pad6 n ++ r) = some (n, r) := by
  show readDigits 6 0 (digitChar (n / 100000 % 10) :: digitChar (n / 10000 % 10) ::
    digitChar (n / 1000 % 10) :: digitChar (n / 100 % 10) :: digitChar (n / 10 % 10) ::
    digitChar (n % 10) :: r) = _
  rw [show (6 : Nat) = 5 + 1 from rfl,
    readDigits_cons _ _ _ _ _ (digitVal_digitChar _ (by omega))]
  rw [show (5 : Nat) = 4 + 1 from rfl,
    readDigits_cons _ _ _ _ _ (digitVal_digitChar _ (by omega))]
  rw [show (4 : Nat) = 3 + 1 from rfl,
    readDigits_cons _ _ _ _ _ (digitVal_digitChar _ (by omega))]
  rw [show (3 : Nat) = 2 + 1 from rfl,
    readDigits_cons _ _ _ _ _ (digitVal_digitChar _ (by omega))]
  rw [show (2 : Nat) = 1 + 1 from rfl,
    readDigits_cons _ _ _ _ _ (digitVal_digitChar _ (by omega)),
    readDigits_cons _ _ _ _ _ (digitVal_digitChar _ (by omega)),
    readDigits_zero]
  have : (((((0 * 10 + n / 100000 % 10) * 10 + n / 10000 % 10) * 10 + n / 1000 % 10) * 10
      + n / 100 % 10) * 10 + n / 10 % 10) * 10 + n % 10 = n := by omega
  rw [this]

/-- The component facts packed into `jsDateOk`. -/
theorem jsDateOk_spec (d : JsDate) (h : jsDateOk d = true) :
    1 ≤ d.month ∧ d.month ≤ 12 ∧ 1 ≤ d.day ∧ d.day ≤ daysInMonth d.year d.month ∧
    d.hour ≤ 23 ∧ d.minute ≤ 59 ∧ d.second ≤ 59 ∧ d.millis ≤ 999 ∧
    d.year.natAbs ≤ 399999 ∧ (epochMillis d).natAbs ≤ 8640000000000000 := by
  simp only [jsDateOk, Bool.and_eq_true, decide_eq_true_eq] at h
  exact ⟨h.1.1.1.1.1.1.1.1.1, h.1.1.1.1.1.1.1.1.2, h.1.1.1.1.1.1.1.2, h.1.1.1.1.1.1.2,
    h.1.1.1.1.1.2, h.1.1.1.1.2, h.1.1.1.2, h.1.1.2, h.1.2, h.2⟩

/-- And conversely. -/
theorem jsDateOk_intro (d : JsDate)
    (h1 : 1 ≤ d.month) (h2 : d.month ≤ 12) (h3 : 1 ≤ d.day)
    (h4 : d.day ≤ daysInMonth d.year d.month) (h5 : d.hour ≤ 23) (h6 : d.minute ≤ 59)
    (h7 : d.second ≤ 59) (h8 : d.millis ≤ 999) (h9 : d.year.natAbs ≤ 399999)
    (h10 : (epochMillis d).natAbs ≤ 8640000000000000) : jsDateOk d = true := by
  simp only [jsDateOk, Bool.and_eq_true, decide_eq_true_eq]
  exact ⟨⟨⟨⟨⟨⟨⟨⟨⟨h1, h2⟩, h3⟩, h4⟩, h5⟩, h6⟩, h7⟩, h8⟩, h9⟩, h10⟩

/-- Zeroing the milliseconds keeps a date valid: the clipped value stays
in range because it is a multiple of 1000. -/
theorem jsDateOk_truncMs (d : JsDate) (h : jsDateOk d = true) :
    jsDateOk {d with millis := 0} = true := by
  obtain ⟨h1, h2, h3, h4, h5, h6, h7, h8, h9, h10⟩ := jsDateOk_spec d h
  have hE : epochMillis d = epochMillis {d with millis := 0} + (d.millis : Int) := by
    simp only [epochMillis]
    push_cast
    ring
  have hKeq : epochMillis {d with millis := 0} =
      1000 * (daysFromCivil d.year d.month d.day * 86400 +
        (d.hour * 3600 + d.minute * 60 + d.second : Nat)) := by
    simp only [epochMillis]
    push_cast
    ring
  exact jsDateOk_intro _ h1 h2 h3 h4 h5 h6 h7 (show (0 : Nat) ≤ 999 by decide) h9 (by omega)

/-- Re-constructing a valid date from its own whole-second components at
offset zero yields the millisecond-truncated date. -/
theorem mkJsDate_self (d : JsDate) (h : jsDateOk d = true) :
    mkJsDate d.year d.month d.day d.hour d.minute d.second 0 0 =
      some {d with millis := 0} := by
  obtain ⟨h1, h2, h3, h4, h5, h6, h7, _, _, _⟩ := jsDateOk_spec d h
  have hcond : 1 ≤ d.month ∧ d.month ≤ 12 ∧ 1 ≤ d.day ∧
      d.day ≤ daysInMonth d.year d.month ∧
      (d.hour ≤ 23 ∨ (d.hour = 24 ∧ d.minute = 0 ∧ d.second = 0 ∧ (0 : Nat) = 0)) ∧
      d.minute ≤ 59 ∧ d.second ≤ 59 ∧ (0 : Nat) ≤ 999 :=
    ⟨h1, h2, h3, h4, Or.inl h5, h6, h7, by decide⟩
  have htm0 : ¬((d.hour : Int) * 60 + (d.minute : Int) - 0 < 0) := by omega
  have htm1 : ¬((1440 : Int) ≤ (d.hour : Int) * 60 + (d.minute : Int) - 0) := by omega
  have hdiv : (((d.hour : Int) * 60 + (d.minute : Int) - 0) / 60).toNat = d.hour := by
    omega
  have hmod : (((d.hour : Int) * 60 + (d.minute : Int) - 0) % 60).toNat = d.minute := by
    omega
  simp only [mkJsDate, if_pos hcond, if_neg htm0, if_neg htm1, hdiv, hmod,
    if_pos (jsDateOk_truncMs d h)]
  simp [h1, h2, h3, h4, h5, h6, h7]

/-- Reading back a formatted year. -/
theorem parseYearPart_fmtYear (y : Int) (hy : y.natAbs ≤ 399999) (r : List Char) :
    parseYearPart (fmtYear y ++ r) = some (y, r) := by
  by_cases hsmall : 0 ≤ y ∧ y ≤ 9999
  · have hfy : fmtYear y = pad4 y.toNat := by simp [fmtYear, hsmall]
    rw [hfy]
    show parseYearPart (digitChar (y.toNat / 1000 % 10) :: (digitChar (y.toNat / 100 % 10) ::
      digitChar (y.toNat / 10 % 10) :: digitChar (y.toNat % 10) :: r)) = _
    rw [parseYearPart]
    rw [if_neg (digitChar_ne _ (by omega) '+' (Or.inl (by decide)))]
    rw [if_neg (digitChar_ne _ (by omega) '-' (Or.inl (by decide)))]
    rw [show (digitChar (y.toNat / 1000 % 10) :: (digitChar (y.toNat / 100 % 10) ::
      digitChar (y.toNat / 10 % 10) :: digitChar (y.toNat % 10) :: r)) =
        pad4 y.toNat ++ r from rfl]
    rw [readDigits_pad4 y.toNat (by omega) r]
    simp only [Option.map_some']
    have : ((y.toNat : Nat) : Int) = y := by omega
    rw [this]
  · by_cases hneg : y < 0
    · have hfy : fmtYear y = '-' :: pad6 y.natAbs := by
        have : ¬(0 ≤ y ∧ y ≤ 9999) := hsmall
        simp [fmtYear, this, hneg]
      rw [hfy]
      show parseYearPart ('-' :: (pad6 y.natAbs ++ r)) = _
      rw [parseYearPart]
      rw [if_neg (by decide), if_pos rfl]
      rw [readDigits_pad6 y.natAbs (by omega) r]
      have hnz : ¬(y.natAbs = 0) := by omega
      show (if y.natAbs = 0 then none else some (-((y.natAbs : Nat) : Int), r)) = some (y, r)
      rw [if_neg hnz]
      have : -((y.natAbs : Nat) : Int) = y := by omega
      rw [this]
    · have hfy : fmtYear y = '+' :: pad6 y.toNat := by
        have : ¬(0 ≤ y ∧ y ≤ 9999) := hsmall
        simp [fmtYear, this, hneg]
      rw [hfy]
      show parseYearPart ('+' :: (pad6 y.toNat ++ r)) = _
      rw [parseYearPart]
      rw [if_pos rfl]
      rw [readDigits_pad6 y.toNat (by omega) r]
      simp only [Option.map_some']
      have : ((y.toNat : Nat) : Int) = y := by omega
      rw [this]

/-- Digit fields contain no dot. -/
theorem pad2_ne_dot (n : Nat) : ∀ c ∈ pad2 n, c ≠ '.' := by
  intro c hc
  simp only [pad2, List.mem_cons, List.not_mem_nil, or_false] at hc
  rcases hc with h | h <;> exact h ▸ digitChar_ne _ (by omega) '.' (Or.inl (by decide))

theorem pad3_ne_dot (n : Nat) : ∀ c ∈ pad3 n, c ≠ '.' := by
  intro c hc
  simp only [pad3, List.mem_cons, List.not_mem_nil, or_false] at hc
  rcases hc with h | h | h <;> exact h ▸ digitChar_ne _ (by omega) '.' (Or.inl (by decide))

theorem pad4_ne_dot (n : Nat) : ∀ c ∈ pad4 n, c ≠ '.' := by
  intro c hc
  simp only [pad4, List.mem_cons, List.not_mem_nil, or_false] at hc
  rcases hc with h | h | h | h <;>
    exact h ▸ digitChar_ne _ (by omega) '.' (Or.inl (by decide))

theorem pad6_ne_dot (n : Nat) : ∀ c ∈ pad6 n, c ≠ '.' := by
  intro c hc
  simp only [pad6, List.mem_cons, List.not_mem_nil, or_false] at hc
  rcases hc with h | h | h | h | h | h <;>
    exact h ▸ digitChar_ne _ (by omega) '.' (Or.inl (by decide))

/-- The whole-second prefix of `toISOString` contains no dot: the only
dot of the string separates the seconds from the milliseconds, as the
code's comment asserts. -/
theorem fmt19_ne_dot (d : JsDate) : ∀ c ∈ fmt19 d, c ≠ '.' := by
  intro c hc
  simp only [fmt19, List.mem_append, List.mem_cons] at hc
  have hy : ∀ c2 ∈ fmtYear d.year, c2 ≠ '.' := by
    intro c2 hc2
    by_cases hsmall : 0 ≤ d.year ∧ d.year ≤ 9999
    · rw [fmtYear, if_pos hsmall] at hc2
      exact pad4_ne_dot _ c2 hc2
    · by_cases hneg : d.year < 0
      · rw [fmtYear, if_neg hsmall, if_pos hneg] at hc2
        rcases List.mem_cons.mp hc2 with h | h
        · exact h ▸ by decide
        · exact pad6_ne_dot _ c2 h
      · rw [fmtYear, if_neg hsmall, if_neg hneg] at hc2
        rcases List.mem_cons.mp hc2 with h | h
        · exact h ▸ by decide
        · exact pad6_ne_dot _ c2 h
  rcases hc with ((((h | h) | h) | h) | h) | h
  · exact hy c h
  · rcases h with h | h
    · exact h ▸ by decide
    · exact pad2_ne_dot _ c h
  · rcases h with h | h
    · exact h ▸ by decide
    · exact pad2_ne_dot _ c h
  · rcases h with h | h
    · exact h ▸ by decide
    · exact pad2_ne_dot _ c h
  · rcases h with h | h
    · exact h ▸ by decide
    · exact pad2_ne_dot _ c h
  · rcases h with h | h
    · exact h ▸ by decide
    · exact pad2_ne_dot _ c h

/-- `split(".")[0]` recovers the part before the dot. -/
theorem splitDotHead_append (a : List Char) (r : List Char)
    (ha : ∀ c ∈ a, c ≠ '.') : splitDotHead (a ++ '.' :: r) = a := by
  induction a with
  | nil => simp [splitDotHead]
  | cons c t ih =>
    simp [splitDotHead, ha c (by simp), ih (fun c2 h2 => ha c2 (by simp [h2]))]

/-- The kickoff-time rewrite drops exactly the millisecond part. -/
theorem normalizedKickoff_eq (d : JsDate) :
    normalizedKickoff d = ⟨fmt19 d ++ ['Z']⟩ := by
  have hsplit : splitDotHead (toISOString d).data = fmt19 d := by
    show splitDotHead (fmt19 d ++ '.' :: pad3 d.millis ++ ['Z']) = fmt19 d
    rw [show fmt19 d ++ '.' :: pad3 d.millis ++ ['Z'] =
      fmt19 d ++ '.' :: (pad3 d.millis ++ ['Z']) from by simp]
    exact splitDotHead_append _ _ (fmt19_ne_dot d)
  simp [normalizedKickoff, hsplit]

/-- Every date the parser produces passes the validity/clip check. -/
theorem mkJsDate_ok (y : Int) (mo dy h mi s ms : Nat) (off : Int) (d : JsDate)
    (hmk : mkJsDate y mo dy h mi s ms off = some d) : jsDateOk d = true := by
  simp only [mkJsDate] at hmk
  iterate 6 all_goals try first
    | exact Option.noConfusion hmk
    | split at hmk
  all_goals
    injection hmk with hd
    rw [← hd]
    assumption

/-- Every parsed ISO date is valid. -/
theorem parseISODate_ok (l : List Char) (d : JsDate) (h : parseISODate l = some d) :
    jsDateOk d = true := by
  simp only [parseISODate] at h
  iterate 8 all_goals try first
    | exact Option.noConfusion h
    | split at h
  all_goals exact mkJsDate_ok _ _ _ _ _ _ _ _ _ h

/-- Reading back a formatted time-of-day with `Z` designator. -/
theorem parseTimePartTZ_fmt (h mi s : Nat) (hh : h ≤ 99) (hmi : mi ≤ 99) (hs : s ≤ 99) :
    parseTimePartTZ (pad2 h ++ ':' :: (pad2 mi ++ ':' :: (pad2 s ++ ['Z']))) =
      some (h, mi, s, 0, 0, []) := by
  have e1 := readDigits_pad2 h hh 0 (':' :: (pad2 mi ++ ':' :: (pad2 s ++ ['Z'])))
  have e2 := readDigits_pad2 mi hmi 0 (':' :: (pad2 s ++ ['Z']))
  have e3 := readDigits_pad2 s hs 0 ['Z']
  simp only [Nat.zero_mul, Nat.zero_add] at e1 e2 e3
  simp only [parseTimePartTZ, e1, parseSecFrac, e2, e3]
  rfl

/-- Reading back a formatted month and day. -/
theorem parseMonthDay_fmt (mo dy : Nat) (hmo : mo ≤ 99) (hdy : dy ≤ 99) (r : List Char) :
    parseMonthDay ('-' :: (pad2 mo ++ '-' :: (pad2 dy ++ r))) = some (mo, dy, r) := by
  have e1 := readDigits_pad2 mo hmo 0 ('-' :: (pad2 dy ++ r))
  have e2 := readDigits_pad2 dy hdy 0 r
  simp only [Nat.zero_mul, Nat.zero_add] at e1 e2
  simp only [parseMonthDay, e1, e2]
  rfl

/-- Month lengths never exceed 31 days. -/
theorem daysInMonth_le (y : Int) (m : Nat) : daysInMonth y m ≤ 31 := by
  simp only [daysInMonth]
  split <;> first | decide | split <;> decide

/-- Reading back the whole-second serialization of a valid date gives the
millisecond-truncated date: the kickoff-time rewrite re-parses to the
same instant. -/
theorem parseISODate_fmt19 (d : JsDate) (h : jsDateOk d = true) :
    parseISODate (fmt19 d ++ ['Z']) = some {d with millis := 0} := by
  obtain ⟨h1, h2, h3, h4, h5, h6, h7, h8, h9, h10⟩ := jsDateOk_spec d h
  have hshape : fmt19 d ++ ['Z'] = fmtYear d.year ++
      ('-' :: (pad2 d.month ++ '-' :: (pad2 d.day ++
        'T' :: (pad2 d.hour ++ ':' :: (pad2 d.minute ++ ':' :: (pad2 d.second ++ ['Z'])))))) := by
    simp [fmt19]
  rw [hshape]
  simp only [parseISODate,
    parseYearPart_fmtYear d.year h9 _,
    parseMonthDay_fmt d.month d.day (by omega)
      (by have := daysInMonth_le d.year d.month; omega) _,
    parseTimePartTZ_fmt d.hour d.minute d.second (by omega) (by omega) (by omega),
    if_pos rfl]
  exact mkJsDate_self d h

/-- `fmt19` does not look at the milliseconds. -/
theorem fmt19_truncMs (d : JsDate) : fmt19 {d with millis := 0} = fmt19 d := rfl

/-- The kickoff-time rewrite does not look at the milliseconds. -/
theorem normalizedKickoff_truncMs (d : JsDate) :
    normalizedKickoff {d with millis := 0} = normalizedKickoff d := by
  rw [normalizedKickoff_eq, normalizedKickoff_eq, fmt19_truncMs]

/-! ## Gateway model: errors, HTTP effects -/

/-- `PipeResponseCodes` from the SDK (modelled subset: the two codes this
program uses). -/
inductive PipeResponseCode where
  | OK
  | INTERNAL_SERVER_ERROR
deriving Repr, DecidableEq

/-- A thrown JavaScript value: either a typed `PipeError` carrying a
response code and a body object, or an ordinary untyped error. -/
inductive Thrown where
  | pipe (code : PipeResponseCode) (body : Json)
  | js (e : JsErrorVal)
deriving Repr

/-- The `RangeError` thrown by `Date.prototype.toISOString` on an invalid
date. -/
def invalidTimeError : JsErrorVal := ⟨"RangeError", "Invalid time value", "undefined"⟩

/-- The `TypeError` thrown by a property access on `null`. -/
def nullPropError : JsErrorVal :=
  ⟨"TypeError", "Cannot read properties of null", "undefined"⟩

/-- The `TypeError` thrown by `objChallenges.map(...)` when `JSON.parse`
returned a non-array. -/
def notFunctionError : JsErrorVal :=
  ⟨"TypeError", "objChallenges.map is not a function", "undefined"⟩

/-- The `TypeError` thrown by indexing into `undefined`. -/
def undefinedIndexError : JsErrorVal :=
  ⟨"TypeError", "Cannot read properties of undefined", "undefined"⟩

/-- `new Error("Invalid offer details")` thrown by `create`. -/
def invalidOfferDetailsError : JsErrorVal := ⟨"Error", "Invalid offer details", "undefined"⟩

/-- One outbound `fetch` call as issued by `makePredictionRequest`. -/
structure HttpRequest where
  url : String
  method : String
  contentType : String
  authorization : String
  body : String
  timeoutMs : Nat
deriving Repr, DecidableEq

/-- The request `makePredictionRequest` builds from its arguments: `POST`
to `url`, `Content-Type: application/json`,
`Authorization: Bearer <apiKey>`, `AbortSignal.timeout(120000)`. -/
def outboundRequest (url apiKey challenges : String) : HttpRequest :=
  ⟨url, "POST", "application/json", "Bearer " ++ apiKey, challenges, 120000⟩

/-- Outcome of one `fetch`: the promise rejects (network error or timeout
abort), or a response arrives with a status and a body stream whose read
either yields the text or fails with an error. -/
inductive FetchOutcome where
  | reject (e : JsErrorVal)
  | resp (status : Nat) (body : Except JsErrorVal String)

/-- `Response.ok`: status in the inclusive range 200–299. -/
def respOk (status : Nat) : Bool := 200 ≤ status && status < 300

inductive LogLevel where
  | debug
  | error
deriving Repr, DecidableEq

structure LogEntry where
  level : LogLevel
  message : String
deriving Repr, DecidableEq

/-- `await response.text().catch(() => "[body not available]")`. -/
def bodyOrPlaceholder : Except JsErrorVal String → String
  | .ok s => s
  | .error _ => "[body not available]"

/-- `await response.clone().text().catch(() => "[not available]")`. -/
def clonedBodyOrPlaceholder : Except JsErrorVal String → String
  | .ok s => s
  | .error _ => "[not available]"

/-- The error body `makePredictionRequest` throws on a non-2xx status:
`new PipeError(INTERNAL_SERVER_ERROR, \x7b predictions: "", message:
"Prediction is failed" \x7d)`. -/
def predictionFailedBody : Json :=
  Json.obj [("predictions", Json.str ""), ("message", Json.str "Prediction is failed")]

/-- `makePredictionRequest(url, apiKey, challenges, logger)`.  The network
is a function from the issued request to its outcome; the result carries
the value returned or thrown, the list of requests issued, and the log
entries written, in order.  `response.json()` is `JSON.parse` of the body
text; an unreadable body stream propagates its read error. -/
def makePredictionRequest (url apiKey challenges : String)
    (net : HttpRequest → FetchOutcome) :
    Except Thrown Json × List HttpRequest × List LogEntry :=
  let req := outboundRequest url apiKey challenges
  match net req with
  | .reject e =>
    (.error (.js e), [req], [⟨.debug, "Fetch error cause: " ++ e.cause⟩])
  | .resp status body =>
    if respOk status then
      let logs : List LogEntry :=
        [⟨.debug, "Response got from " ++ url ++ ": " ++ clonedBodyOrPlaceholder body⟩]
      match body with
      | .ok s =>
        (match jsonParse s with
         | .ok v => (.ok v, [req], logs)
         | .error e => (.error (.js e), [req], logs))
      | .error e => (.error (.js e), [req], logs)
    else
      (.error (.pipe .INTERNAL_SERVER_ERROR predictionFailedBody), [req],
       [⟨.error, "API call to " ++ url ++ " failed with status " ++ Nat.repr status ++
         ": " ++ bodyOrPlaceholder body⟩])

/-! ## Payload normalization (`predictFixtureResults` lines 79–89) -/

/-- Object spread `\x7b...v\x7d`: an object contributes its fields, an
array or string its index-keyed elements, primitives nothing. -/
def spreadFields : Json → List (String × Json)
  | .obj fields => fields
  | .arr es => es.enum.map (fun p => (Nat.repr p.1, p.2))
  | .str s => s.data.enum.map (fun p => (Nat.repr p.1, Json.str ⟨[p.2]⟩))
  | _ => []

/-- One step of the `objChallenges.map` callback:
`\x7b ...challenge, kickoffTime: new Date(challenge.kickoffTime).toISOString().split(".")[0] + "Z" \x7d`.
A `null` record throws `TypeError` at the property access; an invalid
date throws `RangeError` at `toISOString`. -/
def normalizeRecord (c : Json) : Except JsErrorVal Json :=
  match c with
  | .null => .error nullPropError
  | c =>
    match jsNewDate (getProp c "kickoffTime") with
    | none => .error invalidTimeError
    | some d =>
      .ok (.obj (setField (spreadFields c) "kickoffTime" (.str (normalizedKickoff d))))

/-- `objChallenges.map(...)`: the first throwing record aborts the map. -/
def mapChallenges : List Json → Except JsErrorVal (List Json)
  | [] => .ok []
  | c :: rest =>
    match normalizeRecord c with
    | .error e => .error e
    | .ok v =>
      match mapChallenges rest with
      | .error e => .error e
      | .ok vs => .ok (v :: vs)

/-- The whole normalization step: `JSON.parse(challenges)`, `.map(...)`,
`JSON.stringify(...)`.  A non-array parse result makes `.map` throw
`TypeError`. -/
def normalizeChallenges (challenges : String) : Except JsErrorVal String :=
  match jsonParse challenges with
  | .error e => .error e
  | .ok (.arr cs) =>
    match mapChallenges cs with
    | .error e => .error e
    | .ok vs => .ok (jsonStringify (.arr vs))
  | .ok _ => .error notFunctionError

/-! ## `predictFixtureResults` façade -/

/-- A resolved virtual-provider configuration. -/
structure ProviderConfig where
  apiBaseURL : String
  apiKey : String
deriving Repr, DecidableEq

/-- The `PipeError` body thrown when the resolver returns no
configuration. -/
def configNotFoundBody : Json :=
  Json.obj [("message", Json.str "Configuration of the Offer is not found")]

/-- `predictFixtureResults(agreement, resource, challenges)`.  The
configuration resolver (`getVirtualProviderConfiguration` at the fixed
provider identity) is a function of the agreement's offer id; the result
carries the returned value or thrown error, the requests issued, and the
logs written. -/
def predictFixtureResults (resolver : Int → Option ProviderConfig) (offerId : Int)
    (challenges : String) (net : HttpRequest → FetchOutcome) :
    Except Thrown (String × PipeResponseCode) × List HttpRequest × List LogEntry :=
  match resolver offerId with
  | none => (.error (.pipe .INTERNAL_SERVER_ERROR configNotFoundBody), [], [])
  | some configuration =>
    match normalizeChallenges challenges with
    | .error e => (.error (.js e), [], [])
    | .ok challengesToPredict =>
      match makePredictionRequest configuration.apiBaseURL configuration.apiKey
          challengesToPredict net with
      | (.error t, reqs, logs) => (.error t, reqs, logs)
      | (.ok apiResponse, reqs, logs) =>
        (.ok (jsonStringify apiResponse, .OK), reqs, logs)

/-! ## `create` -/

inductive DeploymentStatus where
  | Running
deriving Repr, DecidableEq

/-- The resource details `create` returns. -/
structure ScorePredictionResourceDetails where
  status : DeploymentStatus
  Predictions_Allowance_Count : Json
  Predictions_Count : Json
deriving Repr

/-- JavaScript `typeof` of `offer.details` (`none` is `undefined`). -/
def jsTypeof : Option Json → String
  | none => "undefined"
  | some .null => "object"
  | some (.bool _) => "boolean"
  | some (.num _) => "number"
  | some (.str _) => "string"
  | some (.arr _) => "object"
  | some (.obj _) => "object"

/-- JavaScript truthiness of a JSON value. -/
def jsTruthy : Json → Bool
  | .null => false
  | .bool b => b
  | .num n => decide (n ≠ 0)
  | .str s => decide (s ≠ "")
  | .arr _ => true
  | .obj _ => true

/-- `(offer.details?.params["Number of Predictions"])?.value || 0`.
The optional chain short-circuits on nullish `details`; indexing into an
`undefined` or `null` `params` throws `TypeError`; `?.value` on a
non-nullish entry reads the property (or `undefined`); `|| 0` replaces a
falsy result with `0`. -/
def extractAllowance : Option Json → Except JsErrorVal Json
  | none => .ok (.num 0)
  | some .null => .ok (.num 0)
  | some d =>
    match getProp d "params" with
    | none => .error undefinedIndexError
    | some .null => .error nullPropError
    | some p =>
      match (match getProp p "Number of Predictions" with
             | none => none
             | some .null => none
             | some e => getProp e "value") with
      | some j => .ok (if jsTruthy j then j else .num 0)
      | none => .ok (.num 0)

/-- `create(agreement, offer)` as a function of `offer.details`. -/
def create (details : Option Json) : Except JsErrorVal ScorePredictionResourceDetails :=
  if jsTypeof details = "object" then
    match extractAllowance details with
    | .error e => .error e
    | .ok n => .ok ⟨.Running, n, .num 0⟩
  else .error invalidOfferDetailsError

example : normalizeChallenges
    "[\x7b\"kickoffTime\":\"2024-05-01T12:00:00.123Z\",\"home\":\"A\",\"away\":\"B\"\x7d]" =
    .ok "[\x7b\"kickoffTime\":\"2024-05-01T12:00:00Z\",\"home\":\"A\",\"away\":\"B\"\x7d]" := by
  rfl

example : normalizeChallenges "x" = .error jsonSyntaxError := by rfl
example : normalizeChallenges "5" = .error notFunctionError := by rfl
example : normalizeChallenges "[null]" = .error nullPropError := by rfl
example : normalizeChallenges "[\x7b\"home\":\"A\"\x7d]" = .error invalidTimeError := by rfl

example : create (some (.obj [("params",
    .obj [("Number of Predictions", .obj [("value", .num 50), ("unit", .str "count")])])])) =
    .ok ⟨.Running, .num 50, .num 0⟩ := by rfl
example : create (some (.str "opaque")) = .error invalidOfferDetailsError := by rfl
example : create (some (.obj [])) = .error undefinedIndexError := by rfl
example : create (some .null) = .ok ⟨.Running, .num 0, .num 0⟩ := by rfl
example : create none = .error invalidOfferDetailsError := by rfl

/-! ## Normalization lemmas -/

/-- Writing the value a key already holds back to it changes nothing. -/
theorem setField_idem (fs : List (String × Json)) (k : String) (v : Json) :
    setField (setField fs k v) k v = setField fs k v := by
  induction fs with
  | nil => simp [setField]
  | cons p rest ih =>
    obtain ⟨k0, w⟩ := p
    by_cases h0 : k0 = k
    · subst h0; simp [setField]
    · simp [setField, h0, ih]

/-- A record the map callback accepts is an object with a parseable
`kickoffTime` string, and its image rewrites exactly that field. -/
theorem normalizeRecord_ok_shape (c v : Json) (h : normalizeRecord c = .ok v) :
    ∃ fs s d, c = .obj fs ∧ jlookup fs "kickoffTime" = some (.str s) ∧
      parseISODate s.data = some d ∧
      v = .obj (setField fs "kickoffTime" (.str (normalizedKickoff d))) := by
  cases c with
  | null => exact Except.noConfusion h
  | bool b => exact Except.noConfusion h
  | num n => exact Except.noConfusion h
  | str s => exact Except.noConfusion h
  | arr es => exact Except.noConfusion h
  | obj fs =>
    simp only [normalizeRecord, getProp] at h
    rcases hg : jlookup fs "kickoffTime" with _ | g <;> rw [hg] at h
    · exact Except.noConfusion h
    · cases g with
      | str s =>
        rcases hd : parseISODate s.data with _ | d
        · rw [show jsNewDate (some (.str s)) = none from by simp [jsNewDate, hd]] at h
          exact Except.noConfusion h
        · rw [show jsNewDate (some (.str s)) = some d from by simp [jsNewDate, hd]] at h
          have h2 : Except.ok (Json.obj (setField fs "kickoffTime"
              (Json.str (normalizedKickoff d)))) = Except.ok v := h
          injection h2 with h3
          exact ⟨fs, s, d, rfl, hg, hd, h3.symm⟩
      | null => exact Except.noConfusion h
      | bool b => exact Except.noConfusion h
      | num n => exact Except.noConfusion h
      | arr es => exact Except.noConfusion h
      | obj gs => exact Except.noConfusion h

/-- Normalizing a record the callback already produced returns it
unchanged: the re-parsed kickoff re-serializes identically. -/
theorem normalizeRecord_renorm (c v : Json) (h : normalizeRecord c = .ok v) :
    normalizeRecord v = .ok v := by
  obtain ⟨fs, s, d, hc, hg, hd, hv⟩ := normalizeRecord_ok_shape c v h
  subst hv
  have hok : jsDateOk d = true := parseISODate_ok _ _ hd
  have hkick : jlookup (setField fs "kickoffTime" (.str (normalizedKickoff d)))
      "kickoffTime" = some (.str (normalizedKickoff d)) := by
    rw [jlookup_setField]; simp
  have hparse : parseISODate (normalizedKickoff d).data = some {d with millis := 0} := by
    rw [normalizedKickoff_eq]
    exact parseISODate_fmt19 d hok
  simp only [normalizeRecord, getProp, hkick]
  rw [show jsNewDate (some (.str (normalizedKickoff d))) = some {d with millis := 0} from by
    simp [jsNewDate, hparse]]
  show Except.ok (Json.obj (setField
      (setField fs "kickoffTime" (.str (normalizedKickoff d)))
      "kickoffTime" (.str (normalizedKickoff {d with millis := 0})))) = _
  rw [normalizedKickoff_truncMs, setField_idem]

/-- The callback maps well-formed records to well-formed records. -/
theorem normalizeRecord_wf (c v : Json) (hc : wfVal c = true)
    (h : normalizeRecord c = .ok v) : wfVal v = true := by
  obtain ⟨fs, s, d, hceq, hg, hd, hv⟩ := normalizeRecord_ok_shape c v h
  subst hceq hv
  have h2 : keysNodup fs = true ∧ wfFields fs = true := by
    simpa [wfVal, Bool.and_eq_true] using hc
  show (keysNodup (setField fs "kickoffTime" (.str (normalizedKickoff d))) &&
      wfFields (setField fs "kickoffTime" (.str (normalizedKickoff d)))) = true
  rw [keysNodup_setField _ _ _ h2.1,
    wfFields_setField fs "kickoffTime" (.str (normalizedKickoff d)) h2.2 (by rfl)]
  rfl

/-- Mapping the callback over its own output is the identity. -/
theorem mapChallenges_renorm (cs vs : List Json) (h : mapChallenges cs = .ok vs) :
    mapChallenges vs = .ok vs := by
  induction cs generalizing vs with
  | nil =>
    have h2 : Except.ok ([] : List Json) = (Except.ok vs : Except JsErrorVal (List Json)) := h
    injection h2 with h3
    rw [← h3]
    rfl
  | cons c rest ih =>
    simp only [mapChallenges] at h
    rcases hn : normalizeRecord c with e | v <;> rw [hn] at h
    · exact Except.noConfusion h
    · rcases hm : mapChallenges rest with e | ws <;> rw [hm] at h
      · exact Except.noConfusion h
      · have h2 : Except.ok (v :: ws) = (Except.ok vs : Except JsErrorVal (List Json)) := h
        injection h2 with h3
        rw [← h3]
        simp only [mapChallenges, normalizeRecord_renorm c v hn, ih ws hm]

/-- The map preserves well-formedness of the element list. -/
theorem mapChallenges_wf (cs vs : List Json) (hw : wfElems cs = true)
    (h : mapChallenges cs = .ok vs) : wfElems vs = true := by
  induction cs generalizing vs with
  | nil =>
    have h2 : Except.ok ([] : List Json) = (Except.ok vs : Except JsErrorVal (List Json)) := h
    injection h2 with h3
    rw [← h3]
    rfl
  | cons c rest ih =>
    have hw2 : wfVal c = true ∧ wfElems rest = true := by
      simpa [wfElems, Bool.and_eq_true] using hw
    simp only [mapChallenges] at h
    rcases hn : normalizeRecord c with e | v <;> rw [hn] at h
    · exact Except.noConfusion h
    · rcases hm : mapChallenges rest with e | ws <;> rw [hm] at h
      · exact Except.noConfusion h
      · have h2 : Except.ok (v :: ws) = (Except.ok vs : Except JsErrorVal (List Json)) := h
        injection h2 with h3
        rw [← h3]
        show (wfVal v && wfElems ws) = true
        rw [normalizeRecord_wf c v hw2.1 hn, ih ws hw2.2 hm]
        rfl

/-- The callback only ever throws the null-access `TypeError` or the
invalid-date `RangeError`. -/
theorem normalizeRecord_error_mem (c : Json) (e : JsErrorVal)
    (h : normalizeRecord c = .error e) : e = nullPropError ∨ e = invalidTimeError := by
  rw [normalizeRecord.eq_def] at h
  split at h
  · injection h with h3
    exact .inl h3.symm
  · split at h
    · injection h with h3
      exact .inr h3.symm
    · exact Except.noConfusion h

/-- The map only ever throws the errors its callback throws. -/
theorem mapChallenges_error_mem (cs : List Json) (e : JsErrorVal)
    (h : mapChallenges cs = .error e) : e = nullPropError ∨ e = invalidTimeError := by
  induction cs with
  | nil => exact Except.noConfusion h
  | cons c rest ih =>
    simp only [mapChallenges] at h
    rcases hn : normalizeRecord c with e2 | v <;> rw [hn] at h
    · injection h with h3
      rw [← h3]
      exact normalizeRecord_error_mem c e2 hn
    · rcases hm : mapChallenges rest with e2 | ws <;> rw [hm] at h
      · injection h with h3
        rw [h3] at hm
        exact ih hm
      · exact Except.noConfusion h

/-- `extractAllowance` only ever throws `TypeError`s. -/
theorem extractAllowance_error_name (details : Option Json) (e : JsErrorVal)
    (h : extractAllowance details = .error e) : e.name = "TypeError" := by
  rw [extractAllowance.eq_def] at h
  iterate 4 all_goals try first
    | exact Except.noConfusion h
    | split at h
  all_goals
    injection h with h3
    rw [← h3]
  all_goals rfl

/-! ## The spec's kickoff-time pattern -/

/-- The `MM-DDTHH:MM:SSZ` tail of the spec's pattern. -/
def matchesTail (l : List Char) : Bool :=
  match l with
  | mo1 :: mo2 :: c1 :: d1 :: d2 :: c2 :: h1 :: h2 :: c3 :: mi1 :: mi2 :: c4 ::
      s1 :: s2 :: c5 :: [] =>
    mo1.isDigit && mo2.isDigit && (c1 == '-') && d1.isDigit && d2.isDigit &&
      (c2 == 'T') && h1.isDigit && h2.isDigit && (c3 == ':') && mi1.isDigit &&
      mi2.isDigit && (c4 == ':') && s1.isDigit && s2.isDigit && (c5 == 'Z')
  | _ => false

/-- The spec's pattern `YYYY-MM-DDTHH:MM:SSZ`, read from its words: a
four-digit year, then the dash-separated whole-second UTC tail. -/
def matchesWholeSecondUTC (s : String) : Bool :=
  match s.data with
  | y1 :: y2 :: y3 :: y4 :: c0 :: rest =>
    y1.isDigit && y2.isDigit && y3.isDigit && y4.isDigit && (c0 == '-') &&
      matchesTail rest
  | _ => false

/-- The pattern the code actually guarantees: the spec's pattern, or the
expanded-year form `±YYYYYY-MM-DDTHH:MM:SSZ` that `toISOString` emits for
years outside 0000–9999. -/
def matchesNormalizedKickoffExt (s : String) : Bool :=
  matchesWholeSecondUTC s ||
  (match s.data with
   | sg :: y1 :: y2 :: y3 :: y4 :: y5 :: y6 :: c0 :: rest =>
     (sg == '+' || sg == '-') && y1.isDigit && y2.isDigit && y3.isDigit &&
       y4.isDigit && y5.isDigit && y6.isDigit && (c0 == '-') && matchesTail rest
   | _ => false)

example : matchesWholeSecondUTC "2024-05-01T12:00:00Z" = true := by rfl
example : matchesWholeSecondUTC "+010000-01-01T00:00:00Z" = false := by rfl
example : matchesNormalizedKickoffExt "+010000-01-01T00:00:00Z" = true := by rfl
example : matchesWholeSecondUTC "2024-05-01T12:00:00.123Z" = false := by rfl

/-- Every formatted decimal digit is a digit character. -/
theorem digitChar_isDigit (n : Nat) : (digitChar (n % 10)).isDigit = true := by
  have hk : n % 10 < 10 := Nat.mod_lt _ (by decide)
  set k := n % 10 with hkdef
  interval_cases k <;> decide

/-- The formatted month–second tail always matches the pattern tail. -/
theorem matchesTail_pads (mo dy h mi s : Nat) :
    matchesTail (pad2 mo ++ '-' :: pad2 dy ++ 'T' :: pad2 h ++ ':' :: pad2 mi ++
      ':' :: (pad2 s ++ ['Z'])) = true := by
  simp [matchesTail, pad2, digitChar_isDigit]

/-- Every kickoff string the rewrite emits matches the extended pattern
(four-digit years match the spec's pattern, expanded years the signed
six-digit form). -/
theorem matchesExt_kickoff (d : JsDate) :
    matchesNormalizedKickoffExt (normalizedKickoff d) = true := by
  rw [normalizedKickoff_eq, fmt19, fmtYear]
  rw [matchesNormalizedKickoffExt]
  split
  · rw [Bool.or_eq_true]
    left
    simp [matchesWholeSecondUTC, matchesTail, pad4, pad2, digitChar_isDigit]
  · split
    · rw [Bool.or_eq_true]
      right
      simp [matchesTail, pad6, pad2, digitChar_isDigit]
    · rw [Bool.or_eq_true]
      right
      simp [matchesTail, pad6, pad2, digitChar_isDigit]

/-- `JSON.parse` only ever throws its `SyntaxError`. -/
theorem jsonParse_error (s : String) (e : JsErrorVal) (h : jsonParse s = .error e) :
    e = jsonSyntaxError := by
  simp only [jsonParse] at h
  split at h
  · split at h
    · exact Except.noConfusion h
    · injection h with h3
      exact h3.symm
  · injection h with h3
    exact h3.symm

/-- Decomposition of a successful normalization: the input parsed to an
array, every record mapped, and the output is the re-serialization. -/
theorem normalizeChallenges_ok (challenges out : String)
    (h : normalizeChallenges challenges = .ok out) :
    ∃ cs vs, jsonParse challenges = .ok (.arr cs) ∧ mapChallenges cs = .ok vs ∧
      out = jsonStringify (.arr vs) := by
  rw [normalizeChallenges.eq_def] at h
  split at h
  · exact Except.noConfusion h
  · rename_i cs hp
    split at h
    · exact Except.noConfusion h
    · rename_i vs hm
      injection h with h3
      exact ⟨cs, vs, hp, hm, h3.symm⟩
  · exact Except.noConfusion h

/-- Composition of a successful normalization from its parts. -/
theorem normalizeChallenges_build (s : String) (vs ws : List Json)
    (hp : jsonParse s = .ok (.arr vs)) (hm : mapChallenges vs = .ok ws) :
    normalizeChallenges s = .ok (jsonStringify (.arr ws)) := by
  rw [normalizeChallenges.eq_def, hp]
  show (match mapChallenges vs with
        | .error e => (.error e : Except JsErrorVal String)
        | .ok vs2 => .ok (jsonStringify (.arr vs2))) = .ok (jsonStringify (.arr ws))
  rw [hm]

/-- What normalization does to one accepted record: same object with only
`kickoffTime` rewritten, the new value matching the extended pattern. -/
def recordNormalized (c v : Json) : Prop :=
  ∃ fs d, c = .obj fs ∧
    v = .obj (setField fs "kickoffTime" (.str (normalizedKickoff d))) ∧
    (∀ k, k ≠ "kickoffTime" →
      jlookup (setField fs "kickoffTime" (.str (normalizedKickoff d))) k = jlookup fs k) ∧
    matchesNormalizedKickoffExt (normalizedKickoff d) = true

/-- The map callback realizes `recordNormalized`. -/
theorem normalizeRecord_rel (c v : Json) (h : normalizeRecord c = .ok v) :
    recordNormalized c v := by
  obtain ⟨fs, s, d, hc, hg, hd, hv⟩ := normalizeRecord_ok_shape c v h
  refine ⟨fs, d, hc, hv, ?_, matchesExt_kickoff d⟩
  intro k hk
  rw [jlookup_setField]
  exact if_neg (fun hkk => hk hkk.symm)

/-- The map relates input and output records pointwise. -/
theorem mapChallenges_rel (cs vs : List Json) (h : mapChallenges cs = .ok vs) :
    List.Forall₂ recordNormalized cs vs := by
  induction cs generalizing vs with
  | nil =>
    have h2 : Except.ok ([] : List Json) = (Except.ok vs : Except JsErrorVal (List Json)) := h
    injection h2 with h3
    rw [← h3]
    exact List.Forall₂.nil
  | cons c rest ih =>
    simp only [mapChallenges] at h
    rcases hn : normalizeRecord c with e | v <;> rw [hn] at h
    · exact Except.noConfusion h
    · rcases hm : mapChallenges rest with e | ws <;> rw [hm] at h
      · exact Except.noConfusion h
      · have h2 : Except.ok (v :: ws) = (Except.ok vs : Except JsErrorVal (List Json)) := h
        injection h2 with h3
        rw [← h3]
        exact List.Forall₂.cons (normalizeRecord_rel c v hn) (ih ws hm)

/-! ## Claims -/

/-- C1: for every challenge payload the normalizer accepts and every
resolved configuration, when the downstream endpoint answers the outbound
request with a 2xx status and a readable JSON body, `predictFixtureResults`
returns `responseCode OK` with `predictions` equal to the re-serialization
(serialize after deserialize) of the downstream body, having issued exactly
the one normalized outbound request. -/
theorem predictFixtureResults_success_roundtrip
    (resolver : Int → Option ProviderConfig) (offerId : Int) (cfg : ProviderConfig)
    (challenges normalized body : String) (v : Json) (status : Nat)
    (net : HttpRequest → FetchOutcome)
    (hres : resolver offerId = some cfg)
    (hnorm : normalizeChallenges challenges = .ok normalized)
    (hnet : net (outboundRequest cfg.apiBaseURL cfg.apiKey normalized) =
      .resp status (.ok body))
    (hok : respOk status = true)
    (hv : jsonParse body = .ok v) :
    predictFixtureResults resolver offerId challenges net =
      (.ok (jsonStringify v, .OK),
       [outboundRequest cfg.apiBaseURL cfg.apiKey normalized],
       [⟨.debug, "Response got from " ++ cfg.apiBaseURL ++ ": " ++ body⟩]) := by
  simp [predictFixtureResults, hres, hnorm, makePredictionRequest, hnet, hok, hv,
    clonedBodyOrPlaceholder]

def chC1 : String :=
  "[\x7b\"kickoffTime\":\"2024-05-01T12:00:00.123Z\",\"home\":\"A\",\"away\":\"B\"\x7d]"

def normC1 : String :=
  "[\x7b\"kickoffTime\":\"2024-05-01T12:00:00Z\",\"home\":\"A\",\"away\":\"B\"\x7d]"

def cfgC1 : ProviderConfig := ⟨"https://api.example.net", "key1"⟩

def vC1 : Json :=
  .arr [.obj [("kickoffTime", .str "2024-05-01T12:00:00Z"),
              ("home", .str "A"), ("away", .str "B")]]

/-- C1 witness: the spec's echo example — the outbound body's
`kickoffTime` is truncated to `2024-05-01T12:00:00Z` and the echoed array
comes back re-serialized with `OK`. -/
theorem predictFixtureResults_success_roundtrip_witness :
    predictFixtureResults (fun _ => some cfgC1) 7 chC1 (fun r => .resp 200 (.ok r.body)) =
      (.ok (normC1, .OK),
       [outboundRequest cfgC1.apiBaseURL cfgC1.apiKey normC1],
       [⟨.debug, "Response got from " ++ cfgC1.apiBaseURL ++ ": " ++ normC1⟩]) :=
  predictFixtureResults_success_roundtrip (fun _ => some cfgC1) 7 cfgC1 chC1 normC1
    normC1 vC1 200 (fun r => .resp 200 (.ok r.body)) rfl rfl rfl rfl rfl

/-- C2: when the resolver returns no configuration for the agreement's
offer, `predictFixtureResults` throws the internal-error `PipeError` with
the configuration-not-found message, with no outbound request issued and
no payload parsing done (the result is the same for any challenges input,
including unparseable ones). -/
theorem predictFixtureResults_config_missing
    (resolver : Int → Option ProviderConfig) (offerId : Int)
    (challenges : String) (net : HttpRequest → FetchOutcome)
    (hres : resolver offerId = none) :
    predictFixtureResults resolver offerId challenges net =
      (.error (.pipe .INTERNAL_SERVER_ERROR configNotFoundBody), [], []) := by
  simp [predictFixtureResults, hres]

/-- C2 witness: missing configuration at a concrete offer, with a
challenges string that is not even valid JSON and a network that would
answer — neither is reached. -/
theorem predictFixtureResults_config_missing_witness :
    predictFixtureResults (fun _ => none) 3 "not json" (fun _ => .resp 200 (.ok "[]")) =
      (.error (.pipe .INTERNAL_SERVER_ERROR configNotFoundBody), [], []) :=
  predictFixtureResults_config_missing (fun _ => none) 3 "not json"
    (fun _ => .resp 200 (.ok "[]")) rfl

/-- C3: on a non-success HTTP status the executor throws the constant
internal-error `PipeError` whose body mentions neither the status nor the
response body; both appear only in the single error log entry, where a
failed body read is replaced by the placeholder. -/
theorem makePredictionRequest_non2xx
    (url apiKey challenges : String) (net : HttpRequest → FetchOutcome)
    (status : Nat) (body : Except JsErrorVal String)
    (hnet : net (outboundRequest url apiKey challenges) = .resp status body)
    (hbad : respOk status = false) :
    makePredictionRequest url apiKey challenges net =
      (.error (.pipe .INTERNAL_SERVER_ERROR predictionFailedBody),
       [outboundRequest url apiKey challenges],
       [⟨.error, "API call to " ++ url ++ " failed with status " ++ Nat.repr status ++
         ": " ++ bodyOrPlaceholder body⟩]) := by
  simp [makePredictionRequest, hnet, hbad]

/-- C3 witness: a 500 response whose body read fails — the caller sees
only the constant failure payload, the log carries the status and the
placeholder. -/
theorem makePredictionRequest_non2xx_witness :
    makePredictionRequest "https://api.example.net" "key1" "[]"
      (fun _ => .resp 500 (.error ⟨"TypeError", "body stream already read", "undefined"⟩)) =
      (.error (.pipe .INTERNAL_SERVER_ERROR predictionFailedBody),
       [outboundRequest "https://api.example.net" "key1" "[]"],
       [⟨.error, "API call to " ++ "https://api.example.net" ++ " failed with status " ++
         Nat.repr 500 ++ ": " ++
         bodyOrPlaceholder (.error ⟨"TypeError", "body stream already read", "undefined"⟩)⟩]) :=
  makePredictionRequest_non2xx "https://api.example.net" "key1" "[]"
    (fun _ => .resp 500 (.error ⟨"TypeError", "body stream already read", "undefined"⟩))
    500 (.error ⟨"TypeError", "body stream already read", "undefined"⟩) rfl rfl

/-- C4: the kickoff-time normalization is idempotent — whenever it accepts
a payload, running it again on its own output reproduces that output. -/
theorem normalizeChallenges_idempotent (challenges out : String)
    (h : normalizeChallenges challenges = .ok out) :
    normalizeChallenges out = .ok out := by
  obtain ⟨cs, vs, hp, hm, hout⟩ := normalizeChallenges_ok challenges out h
  have hwcs : wfElems cs = true := jsonParse_wf challenges (.arr cs) hp
  have hwvs : wfElems vs = true := mapChallenges_wf cs vs hwcs hm
  have hrt : jsonParse (jsonStringify (.arr vs)) = .ok (.arr vs) :=
    jsonParse_stringify (.arr vs) hwvs
  rw [hout]
  exact normalizeChallenges_build _ vs vs hrt (mapChallenges_renorm cs vs hm)

/-- C4 witness: a concrete offset-bearing challenge — normalizing its
normalized form reproduces it. -/
theorem normalizeChallenges_idempotent_witness :
    normalizeChallenges "[\x7b\"kickoffTime\":\"2030-01-02T01:04:05Z\"\x7d]" =
      .ok "[\x7b\"kickoffTime\":\"2030-01-02T01:04:05Z\"\x7d]" :=
  normalizeChallenges_idempotent "[\x7b\"kickoffTime\":\"2030-01-02T03:04:05.678+02:00\"\x7d]"
    "[\x7b\"kickoffTime\":\"2030-01-02T01:04:05Z\"\x7d]" rfl

/-- Whether every record of a serialized array has a `kickoffTime`
matching the spec's `YYYY-MM-DDTHH:MM:SSZ` pattern — the property C5
asserts of normalization output, written from the spec's words. -/
def outputKickoffsMatchSpec (out : String) : Bool :=
  match jsonParse out with
  | .ok (.arr vs) => vs.all (fun v =>
      match getProp v "kickoffTime" with
      | some (.str k) => matchesWholeSecondUTC k
      | _ => false)
  | _ => false

/-- C5: refuted as stated — there is a valid challenge array (every
`kickoffTime` parseable) whose normalization succeeds but whose output
`kickoffTime` does not match `YYYY-MM-DDTHH:MM:SSZ`: an expanded-year
timestamp keeps its signed six-digit year. -/
theorem normalizeChallenges_pattern_refuted :
    ∃ challenges out, normalizeChallenges challenges = .ok out ∧
      outputKickoffsMatchSpec out = false :=
  ⟨"[\x7b\"kickoffTime\":\"+010000-01-01T00:00:00.500Z\"\x7d]",
   "[\x7b\"kickoffTime\":\"+010000-01-01T00:00:00Z\"\x7d]", rfl, rfl⟩

/-- C5 counterexample: the concrete expanded-year challenge — normalization
succeeds, but the output kickoff string fails the spec's pattern. -/
theorem normalizeChallenges_pattern_counterexample :
    normalizeChallenges "[\x7b\"kickoffTime\":\"+010000-01-01T00:00:00.500Z\"\x7d]" =
      .ok "[\x7b\"kickoffTime\":\"+010000-01-01T00:00:00Z\"\x7d]" ∧
    matchesWholeSecondUTC "+010000-01-01T00:00:00Z" = false :=
  ⟨rfl, rfl⟩

/-- C5 amended: normalization preserves the record count, rewrites only
`kickoffTime`, and the output `kickoffTime` matches the extended pattern
`YYYY-MM-DDTHH:MM:SSZ` or `±YYYYYY-MM-DDTHH:MM:SSZ`. -/
theorem normalizeChallenges_frame_amended (challenges out : String)
    (h : normalizeChallenges challenges = .ok out) :
    ∃ cs vs, jsonParse challenges = .ok (.arr cs) ∧ jsonParse out = .ok (.arr vs) ∧
      vs.length = cs.length ∧ List.Forall₂ recordNormalized cs vs := by
  obtain ⟨cs, vs, hp, hm, hout⟩ := normalizeChallenges_ok challenges out h
  have hwcs : wfElems cs = true := jsonParse_wf challenges (.arr cs) hp
  have hwvs : wfElems vs = true := mapChallenges_wf cs vs hwcs hm
  have hrel := mapChallenges_rel cs vs hm
  refine ⟨cs, vs, hp, ?_, hrel.length_eq.symm, hrel⟩
  rw [hout]
  exact jsonParse_stringify (.arr vs) hwvs

/-- C6: for offer details that are structured data carrying a `params`
object, `create` returns status `Running`, `Predictions_Count` 0, and
`Predictions_Allowance_Count` equal to the truthy
`params["Number of Predictions"].value`, defaulting to 0 when that entry
is absent. -/
theorem create_allowance (fs ps : List (String × Json))
    (hp : jlookup fs "params" = some (.obj ps)) :
    (∀ es n, jlookup ps "Number of Predictions" = some (.obj es) →
        jlookup es "value" = some (.num n) → n ≠ 0 →
        create (some (.obj fs)) = .ok ⟨.Running, .num n, .num 0⟩) ∧
    (jlookup ps "Number of Predictions" = none →
        create (some (.obj fs)) = .ok ⟨.Running, .num 0, .num 0⟩) := by
  constructor
  · intro es n h1 h2 h3
    simp [create, jsTypeof, extractAllowance, getProp, hp, h1, h2, jsTruthy, h3]
  · intro h1
    simp [create, jsTypeof, extractAllowance, getProp, hp, h1]

/-- C6 witness: the spec's example — details
`\x7b params: \x7b "Number of Predictions": \x7b value: 50, unit: "count" \x7d \x7d \x7d`
yield allowance 50 and count 0. -/
theorem create_allowance_witness :
    create (some (.obj [("params", .obj [("Number of Predictions",
        .obj [("value", .num 50), ("unit", .str "count")])])])) =
      .ok ⟨.Running, .num 50, .num 0⟩ :=
  (create_allowance
      [("params", .obj [("Number of Predictions",
        .obj [("value", .num 50), ("unit", .str "count")])])]
      [("Number of Predictions", .obj [("value", .num 50), ("unit", .str "count")])]
      rfl).1
    [("value", .num 50), ("unit", .str "count")] 50 rfl rfl (by decide)

/-- C7: `create` throws the `Invalid offer details` error exactly for
offers whose details are not structured data (`typeof` other than
`"object"`) — never in the object branch, whose own faults are
`TypeError`s. -/
theorem create_invalid_details_iff (details : Option Json) :
    create details = .error invalidOfferDetailsError ↔ jsTypeof details ≠ "object" := by
  constructor
  · intro h hobj
    rw [create, if_pos hobj] at h
    rcases hx : extractAllowance details with e | n <;> rw [hx] at h
    · have h2 : (Except.error e :
          Except JsErrorVal ScorePredictionResourceDetails) = .error invalidOfferDetailsError := h
      injection h2 with h3
      have hname := extractAllowance_error_name details e hx
      rw [h3] at hname
      exact absurd hname (by decide)
    · exact Except.noConfusion h
  · intro h
    rw [create, if_neg h]

/-- C8: refuted as stated — a malformed challenges input does not fail
with a typed `MalformedChallengePayload` error: no such error class exists
in the program, and the untyped runtime `SyntaxError` of `JSON.parse`
propagates to the caller unchanged. -/
theorem normalizeChallenges_untyped_failure :
    ∃ (challenges : String) (e : JsErrorVal),
      normalizeChallenges challenges = .error e ∧
      e.name = "SyntaxError" ∧
      predictFixtureResults (fun _ => some ⟨"https://api.example.net", "key1"⟩) 0 challenges
        (fun _ => .resp 200 (.ok "[]")) = (.error (.js e), [], []) :=
  ⟨"x", jsonSyntaxError, rfl, rfl, rfl⟩

/-- C8 counterexample: the concrete malformed input `"x"` — the failure is
the untyped `SyntaxError`, not a typed `PipeError` classification. -/
theorem normalizeChallenges_untyped_counterexample :
    normalizeChallenges "x" = .error jsonSyntaxError ∧
    predictFixtureResults (fun _ => some ⟨"https://api.example.net", "key1"⟩) 1 "x"
      (fun _ => .resp 200 (.ok "[]")) = (.error (.js jsonSyntaxError), [], []) :=
  ⟨rfl, rfl⟩

/-- C8 amended: every normalization failure propagates out of
`predictFixtureResults` as the original untyped runtime error — a
`SyntaxError`, `TypeError` or `RangeError` — with no request issued and
nothing logged. -/
theorem normalizeChallenges_failure_amended (challenges : String) (e : JsErrorVal)
    (resolver : Int → Option ProviderConfig) (offerId : Int) (cfg : ProviderConfig)
    (net : HttpRequest → FetchOutcome)
    (hres : resolver offerId = some cfg)
    (h : normalizeChallenges challenges = .error e) :
    predictFixtureResults resolver offerId challenges net = (.error (.js e), [], []) ∧
    (e.name = "SyntaxError" ∨ e.name = "TypeError" ∨ e.name = "RangeError") := by
  constructor
  · simp [predictFixtureResults, hres, h]
  · rw [normalizeChallenges.eq_def] at h
    split at h
    · rename_i e2 hp
      injection h with h3
      rw [← h3, jsonParse_error challenges e2 hp]
      exact .inl rfl
    · rename_i cs hp
      split at h
      · rename_i e2 hm
        injection h with h3
        rw [← h3]
        rcases mapChallenges_error_mem cs e2 hm with h4 | h4 <;> rw [h4]
        · exact .inr (.inl rfl)
        · exact .inr (.inr rfl)
      · exact Except.noConfusion h
    · injection h with h3
      rw [← h3]
      exact .inr (.inl rfl)

/-- C9: on transport-level failure of the outbound call the executor logs
the error's cause at debug level and re-raises the underlying error
unchanged, having issued exactly one request — no retry. -/
theorem makePredictionRequest_transport_rethrow
    (url apiKey challenges : String) (net : HttpRequest → FetchOutcome) (e : JsErrorVal)
    (hnet : net (outboundRequest url apiKey challenges) = .reject e) :
    makePredictionRequest url apiKey challenges net =
      (.error (.js e), [outboundRequest url apiKey challenges],
       [⟨.debug, "Fetch error cause: " ++ e.cause⟩]) := by
  simp [makePredictionRequest, hnet]

/-- C9 witness: a concrete timeout abort — rethrown unchanged after the
debug log, one request issued. -/
theorem makePredictionRequest_transport_rethrow_witness :
    makePredictionRequest "https://api.example.net" "key1" "[]"
      (fun _ => .reject ⟨"TimeoutError", "signal timed out", "undefined"⟩) =
      (.error (.js ⟨"TimeoutError", "signal timed out", "undefined"⟩),
       [outboundRequest "https://api.example.net" "key1" "[]"],
       [⟨.debug, "Fetch error cause: " ++ "undefined"⟩]) :=
  makePredictionRequest_transport_rethrow "https://api.example.net" "key1" "[]"
    (fun _ => .reject ⟨"TimeoutError", "signal timed out", "undefined"⟩)
    ⟨"TimeoutError", "signal timed out", "undefined"⟩ rfl

/-- C10: `create` is not total over object-typed details — `details = \x7b\x7d`
passes the structured-data check yet faults with an untyped `TypeError`
when the allowance expression indexes into the undefined `params`, reaching
neither the success return nor the invalid-details error; `details = null`
(also `typeof "object"`) short-circuits the optional chain and succeeds
with allowance 0. -/
theorem create_partiality :
    jsTypeof (some (.obj [])) = "object" ∧
    create (some (.obj [])) = .error undefinedIndexError ∧
    undefinedIndexError.name = "TypeError" ∧
    undefinedIndexError ≠ invalidOfferDetailsError ∧
    jsTypeof (some .null) = "object" ∧
    create (some .null) = .ok ⟨.Running, .num 0, .num 0⟩ :=
  ⟨rfl, rfl, rfl, by decide, rfl, rfl⟩

end FootballGateway
